import Mathlib

/-!
# EmptyEpsilon: `src/spaceObjects/spaceObject.cpp`

A shallow embedding of the entity interaction layer of `spaceObject.cpp`:
the hail state machine (`sendCommsMessage`, `openCommsTo`), the reputation
ledger (`getReputationPoints`, `takeReputationPoints`, `addReputationPoints`,
`removeReputationPoints`), area damage (`damageArea`), the proximity queries
(`getObjectsInRange`, `areEnemiesInRange`), the faction predicates (`isEnemy`,
`isFriendly`) and the parsing of a damage kind (`convert<DamageInfo>::param`).

Modelling conventions.

* Objects live in a heap `World`, addressed by `ObjId`; a `P<T>` smart pointer
  is an `Option ObjId`, and pointer comparison is comparison of ids.
* The class chain `Collisionable <- SpaceObject <- PlayerSpaceship` is a chain
  of records, each holding the optional derived part, so that the dynamic cast
  `P<SpaceObject> obj = c` is a projection to an `Option`.
* `float` is modelled at two levels.  Where a statement rests on branches and
  comparisons only, the value is a rational number and the arithmetic is
  exact.  Where a statement is about the value that is computed, the value is
  an `F32`: NaN, an infinity or a finite binary32 number, every operation
  rounded to nearest, ties to even; the names of that embedding are prefixed
  by `Binary32`.  A division whose divisor is zero is an explicit failure.
* Reading `std::vector::operator[]` outside the vector is undefined behaviour
  and is an explicit failure (`none`).
-/

namespace EmptyEpsilon

/-! ## Data model -/

/-- Identity of an object (the address a `P<...>` pointer holds). -/
abbrev ObjId := Nat

/-- The type `sf::Vector2f`, with exact coordinates. -/
abbrev Vector2f := ℚ × ℚ

/-- Comms states of a player ship, as named in the `switch` of
`sendCommsMessage`. -/
inductive ECommsState
  | CS_Inactive
  | CS_OpeningChannel
  | CS_BeingHailed
  | CS_BeingHailedByGM
  | CS_ChannelOpen
  | CS_ChannelOpenPlayer
  | CS_ChannelOpenGM
  | CS_ChannelFailed
  | CS_ChannelBroken
  deriving DecidableEq, Repr

/-- The fields of `PlayerSpaceship` that `spaceObject.cpp` reads or writes. -/
structure PlayerSpaceship where
  comms_state : ECommsState
  comms_target : Option ObjId
  comms_target_name : String
  comms_incomming_message : String
  deriving DecidableEq, Repr

/-- The fields of `SpaceObject` used in `spaceObject.cpp`; `faction_id` is an
index into the faction list, `callSign` is what the virtual `getCallSign()`
returns, `player` is the `PlayerSpaceship` part when the object is a player
ship. -/
structure SpaceObject where
  object_radius : ℚ
  faction_id : Nat
  callSign : String
  player : Option PlayerSpaceship
  deriving DecidableEq, Repr

/-- A `Collisionable`: a position, and the `SpaceObject` part when the dynamic
cast to `SpaceObject` succeeds. -/
structure Collisionable where
  position : Vector2f
  spaceObject : Option SpaceObject
  deriving DecidableEq, Repr

/-- The heap of live objects; `none` at an id is a destroyed or absent object,
to which every `P<...>` pointer reads as null. -/
abbrev World := ObjId → Option Collisionable

/-- The cast `P<SpaceObject> obj = c`: null unless `c` is a live `SpaceObject`. -/
def asSpaceObject (w : World) (c : ObjId) : Option SpaceObject :=
  match w c with
  | some col => col.spaceObject
  | none => none

/-- Dereference of a `P<PlayerSpaceship>`: null unless it points to a live
player ship. -/
def asPlayerSpaceship (w : World) (t : ObjId) : Option PlayerSpaceship :=
  match asSpaceObject w t with
  | some so => so.player
  | none => none

/-- The call `getPosition()` on object `i` (the origin at an absent object). -/
def getPosition (w : World) (i : ObjId) : Vector2f :=
  match w i with
  | some col => col.position
  | none => (0, 0)

/-- The call `getCallSign()` on object `i` (empty at an absent object). -/
def getCallSign (w : World) (i : ObjId) : String :=
  match asSpaceObject w i with
  | some so => so.callSign
  | none => ""

/-- The call `getRadius()`, which returns `object_radius`. -/
def SpaceObject.getRadius (o : SpaceObject) : ℚ := o.object_radius

/-- The object `col` with `SpaceObject` part `so`, its player-ship part
replaced by `ps` and every other field kept. -/
def withPlayer (col : Collisionable) (so : SpaceObject) (ps : PlayerSpaceship) : Collisionable :=
  { col with spaceObject := some { so with player := some ps } }

/-- An assignment `target->field = value`: the player-ship part of object `t`
is replaced by `f` of it, every other object and every other field is kept. -/
def modifyPlayer (w : World) (t : ObjId) (f : PlayerSpaceship → PlayerSpaceship) : World :=
  fun i =>
    if i = t then
      match w i with
      | some col =>
        match col.spaceObject with
        | some so =>
          match so.player with
          | some ps => some (withPlayer col so (f ps))
          | none => some col
        | none => some col
      | none => none
    else w i

/-! ## The hail state machine -/

/-- The `switch` of `sendCommsMessage` (lines 201-217): `false` when a case
returns false, `true` when the case breaks out of the switch. -/
def commsSwitch (self : ObjId) (ps : PlayerSpaceship) : Bool :=
  match ps.comms_state with
  | .CS_OpeningChannel | .CS_BeingHailed =>
    if ps.comms_target ≠ some self then false else true
  | .CS_BeingHailedByGM | .CS_ChannelOpen | .CS_ChannelOpenPlayer | .CS_ChannelOpenGM => false
  | .CS_Inactive | .CS_ChannelFailed | .CS_ChannelBroken => true

/-- The method `SpaceObject::sendCommsMessage` called on object `self`: the
returned flag and the world after the call. -/
def sendCommsMessage (w : World) (self : ObjId) (target : Option ObjId) (message : String) :
    Bool × World :=
  match target with
  | none => (false, w)
  | some t =>
    match asPlayerSpaceship w t with
    | none => (false, w)
    | some ps =>
      if commsSwitch self ps then
        let w1 := modifyPlayer w t (fun p => { p with comms_target := some self })
        let w2 := modifyPlayer w1 t (fun p => { p with comms_target_name := getCallSign w1 self })
        let w3 := modifyPlayer w2 t (fun p => { p with comms_state := .CS_BeingHailed })
        let w4 := modifyPlayer w3 t (fun p => { p with comms_incomming_message := message })
        (true, w4)
      else (false, w)

/-- The method `SpaceObject::openCommsTo`. -/
def openCommsTo (w : World) (self : ObjId) (target : Option ObjId) : Bool × World :=
  sendCommsMessage w self target ""

/-! ## The reputation ledger -/

/-- The global `gameGlobalInfo`, of which this file uses the vector
`reputation_points` (one balance per faction id). -/
structure GameGlobalInfo where
  reputation_points : List ℚ
  deriving DecidableEq, Repr

/-- Truncation toward zero, the value of a `float` converted to an integer. -/
def truncate (q : ℚ) : Int :=
  if 0 ≤ q then Int.floor q else Int.ceil q

/-- Conversion of a `float` to the 32-bit `int` a function returns: the
truncated value, undefined (`none`) when it does not fit. -/
def floatToInt (q : ℚ) : Option Int :=
  if -(2 ^ 31 : Int) ≤ truncate q ∧ truncate q < (2 ^ 31 : Int) then some (truncate q) else none

/-- The method `SpaceObject::getReputationPoints` (lines 156-161). -/
def getReputationPoints (g : GameGlobalInfo) (self : SpaceObject) : Option Int :=
  if g.reputation_points.length < self.faction_id then some 0
  else
    match g.reputation_points[self.faction_id]? with
    | some balance => floatToInt balance
    | none => none

/-- The method `SpaceObject::takeReputationPoints` (lines 163-171): the
returned flag and the global state after the call. -/
def takeReputationPoints (g : GameGlobalInfo) (self : SpaceObject) (amount : ℚ) :
    Option (Bool × GameGlobalInfo) :=
  if g.reputation_points.length < self.faction_id then some (false, g)
  else
    match g.reputation_points[self.faction_id]? with
    | none => none
    | some balance =>
      if balance < amount then some (false, g)
      else
        some (true,
          { g with reputation_points := g.reputation_points.set self.faction_id (balance - amount) })

/-- The method `SpaceObject::addReputationPoints` (lines 178-185): the credit,
then the clamp of the stored balance at zero. -/
def addReputationPoints (g : GameGlobalInfo) (self : SpaceObject) (amount : ℚ) :
    Option GameGlobalInfo :=
  if g.reputation_points.length < self.faction_id then some g
  else
    match g.reputation_points[self.faction_id]? with
    | none => none
    | some balance =>
      let credited := g.reputation_points.set self.faction_id (balance + amount)
      match credited[self.faction_id]? with
      | none => none
      | some stored =>
        if stored < 0 then some { g with reputation_points := credited.set self.faction_id 0 }
        else some { g with reputation_points := credited }

/-- The method `SpaceObject::removeReputationPoints` (lines 173-176). -/
def removeReputationPoints (g : GameGlobalInfo) (self : SpaceObject) (amount : ℚ) :
    Option GameGlobalInfo :=
  addReputationPoints g self (-amount)

/-! ## Area damage -/

/-- Modelled from the spec: the enumeration of the damage kinds, declared
outside this file; `DT_Energy`, `DT_Kinetic` and `DT_EMP` are named in
`spaceObject.cpp`, and the spec adds the kind Unspecified of a `DamageInfo`
that no token has set. -/
inductive EDamageType
  | DT_Energy
  | DT_Kinetic
  | DT_EMP
  | DT_Unspecified
  deriving DecidableEq, Repr

/-- The value `DamageInfo`, of which this file uses the field `type`. -/
structure DamageInfo where
  type : EDamageType
  deriving DecidableEq, Repr

/-- One invocation `obj->takeDamage(damage_amount, info)`; `takeDamage` is a
virtual hook whose bodies lie outside this file, so the model records the
invocations in order and takes the hook to leave the position, radius and
liveness of the objects of the hit list as they are. -/
structure TakeDamageCall where
  obj : ObjId
  damage_amount : ℚ
  info : DamageInfo
  deriving DecidableEq, Repr

/-- Division of floats, with a zero divisor made an explicit failure. -/
def fdiv (a b : ℚ) : Option ℚ :=
  if b = 0 then none else some (a / b)

/-- One iteration of the `foreach` of `damageArea` (lines 113-122) on the hit
`c`, after the invocations `calls` made so far. -/
def damageAreaStep (w : World) (length : Vector2f → ℚ) (position : Vector2f)
    (blast_range min_damage max_damage : ℚ) (info : DamageInfo) (min_range : ℚ)
    (calls : List TakeDamageCall) (c : ObjId) : Option (List TakeDamageCall) :=
  match asSpaceObject w c with
  | none => some calls
  | some obj =>
    let dist0 := length (position - getPosition w c) - obj.getRadius - min_range
    let dist := if dist0 < 0 then 0 else dist0
    if dist < blast_range - min_range then
      match fdiv ((max_damage - min_damage) * dist) (blast_range - min_range) with
      | none => none
      | some q => some (calls ++ [⟨c, max_damage - q, info⟩])
    else some calls

/-- The loop of `damageArea` over a hit list. -/
def damageAreaLoop (w : World) (length : Vector2f → ℚ) (position : Vector2f)
    (blast_range min_damage max_damage : ℚ) (info : DamageInfo) (min_range : ℚ) :
    List ObjId → List TakeDamageCall → Option (List TakeDamageCall)
  | [], calls => some calls
  | c :: rest, calls =>
    match damageAreaStep w length position blast_range min_damage max_damage info min_range
        calls c with
    | none => none
    | some calls1 =>
      damageAreaLoop w length position blast_range min_damage max_damage info min_range
        rest calls1

/-- The method `SpaceObject::damageArea` (lines 108-124): the `takeDamage`
invocations it makes, in order, or `none` when it divides by zero.
`queryArea` is `CollisionManager::queryArea` (the spatial index) and `length`
is `sf::length`, the Euclidean length of a vector; both are library functions
outside this file. -/
def damageArea (w : World) (queryArea : Vector2f → Vector2f → List ObjId)
    (length : Vector2f → ℚ) (position : Vector2f)
    (blast_range min_damage max_damage : ℚ) (info : DamageInfo) (min_range : ℚ) :
    Option (List TakeDamageCall) :=
  let hitList := queryArea (position - (blast_range, blast_range))
    (position + (blast_range, blast_range))
  damageAreaLoop w length position blast_range min_damage max_damage info min_range hitList []

/-- The distance from the epicenter to the surface of the object, less the
full-damage core, floored at zero: `max(0, distance - radius - min_range)`. -/
def falloffDist (w : World) (length : Vector2f → ℚ) (position : Vector2f) (min_range : ℚ)
    (c : ObjId) (obj : SpaceObject) : ℚ :=
  max 0 (length (position - getPosition w c) - obj.getRadius - min_range)

/-- The invocation the text of the falloff rule prescribes for the hit `c`:
none for a hit that is no `SpaceObject` or lies outside the band, and
otherwise the linear interpolation between `max_damage` and `min_damage`. -/
def falloffCall (w : World) (length : Vector2f → ℚ) (position : Vector2f)
    (blast_range min_damage max_damage : ℚ) (info : DamageInfo) (min_range : ℚ)
    (c : ObjId) : Option TakeDamageCall :=
  match asSpaceObject w c with
  | none => none
  | some obj =>
    if falloffDist w length position min_range c obj < blast_range - min_range then
      some ⟨c, max_damage - (max_damage - min_damage)
        * falloffDist w length position min_range c obj / (blast_range - min_range), info⟩
    else none

/-- A length function for the worked examples: it is the Euclidean length on
every vector that lies on a coordinate axis. -/
def axisLength (v : Vector2f) : ℚ := |v.1| + |v.2|

/-! ## The proximity query -/

/-- Modelled from the spec: the comparison `sf::Vector2f < float` used at lines
134 and 148, an operator declared outside this file.  The spec reads it as
the true centre-to-centre distance being strictly less than the scalar; with
exact coordinates, the Euclidean length of `v` is less than `f` when `f` is
positive and the squared length is less than the square of `f`. -/
def vecLess (v : Vector2f) (f : ℚ) : Bool :=
  decide (0 < f ∧ v.1 * v.1 + v.2 * v.2 < f * f)

/-- One iteration of the `foreach` of `getObjectsInRange` (lines 147-151). -/
def getObjectsInRangeStep (w : World) (self : ObjId) (range : ℚ)
    (ret : List ObjId) (c : ObjId) : List ObjId :=
  match asSpaceObject w c with
  | some obj =>
    if vecLess (getPosition w self - getPosition w c) (range + obj.getRadius) then ret ++ [c]
    else ret
  | none => ret

/-- The method `SpaceObject::getObjectsInRange` (lines 141-154) called on
object `self`; `queryArea` is `CollisionManager::queryArea`. -/
def getObjectsInRange (w : World) (queryArea : Vector2f → Vector2f → List ObjId)
    (self : ObjId) (range : ℚ) : List ObjId :=
  let hitList := queryArea (getPosition w self - (range, range))
    (getPosition w self + (range, range))
  hitList.foldl (getObjectsInRangeStep w self range) []

/-- The test the spec gives for a candidate of the proximity query: it is a
`SpaceObject` and its centre is nearer than `range` plus its radius. -/
def inCircle (w : World) (self : ObjId) (range : ℚ) (c : ObjId) : Bool :=
  match asSpaceObject w c with
  | some obj => vecLess (getPosition w self - getPosition w c) (range + obj.object_radius)
  | none => false

/-! ## Faction relations -/

/-- The relation of one faction to another; `FVF_Enemy` and `FVF_Friendly` are
named in `isEnemy` and `isFriendly`, and Neutral is the third value the spec
lists. -/
inductive EFactionVsFactionState
  | FVF_Neutral
  | FVF_Friendly
  | FVF_Enemy
  deriving DecidableEq, Repr

/-- One entry of the global `factionInfo`: the row `states` of a faction, with
its relation to each faction id. -/
structure FactionInfo where
  states : List EFactionVsFactionState
  deriving DecidableEq, Repr

/-- The lookup `factionInfo[i]->states[j]`; an index outside the table or
outside the row is an out-of-bounds read, an explicit failure. -/
def factionState (factionInfo : List FactionInfo) (i j : Nat) :
    Option EFactionVsFactionState :=
  match factionInfo[i]? with
  | none => none
  | some row => row.states[j]?

/-- The method `SpaceObject::isEnemy` (lines 98-101). -/
def isEnemy (factionInfo : List FactionInfo) (self obj : SpaceObject) : Option Bool :=
  match factionState factionInfo self.faction_id obj.faction_id with
  | none => none
  | some st => some (decide (st = .FVF_Enemy))

/-- The method `SpaceObject::isFriendly` (lines 103-106). -/
def isFriendly (factionInfo : List FactionInfo) (self obj : SpaceObject) : Option Bool :=
  match factionState factionInfo self.faction_id obj.faction_id with
  | none => none
  | some st => some (decide (st = .FVF_Friendly))

/-- The loop of `areEnemiesInRange` (lines 129-138) for the querying object
`self`, whose `SpaceObject` part is `me`: it returns at the first enemy in
range. -/
def areEnemiesInRangeLoop (w : World) (factionInfo : List FactionInfo) (me : SpaceObject)
    (self : ObjId) (range : ℚ) : List ObjId → Option Bool
  | [] => some false
  | c :: rest =>
    match asSpaceObject w c with
    | none => areEnemiesInRangeLoop w factionInfo me self range rest
    | some obj =>
      match isEnemy factionInfo me obj with
      | none => none
      | some false => areEnemiesInRangeLoop w factionInfo me self range rest
      | some true =>
        if vecLess (getPosition w self - getPosition w c) (range + obj.getRadius) then some true
        else areEnemiesInRangeLoop w factionInfo me self range rest

/-- The method `SpaceObject::areEnemiesInRange` (lines 126-139) called on
object `self`; a failure when `self` is no live `SpaceObject` or a faction
lookup reads outside the table. -/
def areEnemiesInRange (w : World) (factionInfo : List FactionInfo)
    (queryArea : Vector2f → Vector2f → List ObjId) (self : ObjId) (range : ℚ) : Option Bool :=
  match asSpaceObject w self with
  | none => none
  | some me =>
    let hitList := queryArea (getPosition w self - (range, range))
      (getPosition w self + (range, range))
    areEnemiesInRangeLoop w factionInfo me self range hitList

/-- The test `isEnemy(obj)` of the querying entity `me` on the member `c` of a
result list. -/
def isEnemyOf (w : World) (factionInfo : List FactionInfo) (me : SpaceObject) (c : ObjId) :
    Bool :=
  match asSpaceObject w c with
  | some obj => isEnemy factionInfo me obj == some true
  | none => false

/-- The formulation of the spec for the enemy check: compute the full list
`getObjectsInRange(range)`, keep the enemies, and test that the list so
obtained is not empty. -/
def enemiesInRangeBySet (w : World) (factionInfo : List FactionInfo)
    (queryArea : Vector2f → Vector2f → List ObjId) (me : SpaceObject) (self : ObjId)
    (range : ℚ) : Bool :=
  !((getObjectsInRange w queryArea self range).filter (isEnemyOf w factionInfo me)).isEmpty

/-! ## Damage-kind parsing -/

/-- Modelled from the spec: the `DamageInfo` that the script binding hands to
`convert<DamageInfo>::param`, a default-constructed one; its constructor is
declared outside this file, and the spec gives it the kind Unspecified. -/
def defaultDamageInfo : DamageInfo := ⟨.DT_Unspecified⟩

/-- Modelled from the spec: the method `lower()` of the engine string class,
declared outside this file; the spec has the token read without regard to
letter case, so each upper-case ASCII letter becomes its lower-case letter. -/
def lower (s : String) : String := ⟨s.data.map Char.toLower⟩

/-- The function `convert<DamageInfo>::param` (lines 225-236).  The Lua value
at `idx` is `some s` when `lua_isstring` holds of it, with `s` the text that
`luaL_checkstring` returns, and `none` otherwise; the result is the index and
the `DamageInfo` after the call. -/
def convertDamageInfoParam (arg : Option String) (idx : Int) (di : DamageInfo) :
    Int × DamageInfo :=
  match arg with
  | none => (idx, di)
  | some s =>
    let str := lower s
    if str = "energy" then (idx + 1, { di with type := .DT_Energy })
    else if str = "kinetic" then (idx + 1, { di with type := .DT_Kinetic })
    else if str = "emp" then (idx + 1, { di with type := .DT_EMP })
    else (idx + 1, di)

/-! ## Binary32 arithmetic -/

/-- A value of the C++ type `float` (IEEE 754 binary32): NaN, an infinity, or
a finite value, given by the rational number it denotes.  The sign of a zero
is not kept: it bears on no comparison, and the code embedded below divides
by no zero. -/
inductive F32
  | nan
  | pinf
  | ninf
  | fin (q : ℚ)
  deriving DecidableEq, Repr

/-- The number of halvings that bring `n` below 2, with `fuel` steps allowed. -/
def log2Fuel : Nat → Nat → Nat
  | 0, _ => 0
  | fuel + 1, n => if n < 2 then 0 else log2Fuel fuel (n / 2) + 1

/-- The integer part of the binary logarithm of a positive natural number. -/
def log2Nat (n : Nat) : Nat := log2Fuel n n

/-- The integer part of the binary logarithm of the magnitude of a rational
number other than zero: the `k` with `2 ^ k ≤ |q| < 2 ^ (k + 1)`. -/
def ilog2 (q : ℚ) : Int :=
  if (2 : ℚ) ^ ((log2Nat q.num.natAbs : Int) - (log2Nat q.den : Int)) ≤ |q| then
    (log2Nat q.num.natAbs : Int) - (log2Nat q.den : Int)
  else (log2Nat q.num.natAbs : Int) - (log2Nat q.den : Int) - 1

/-- The exponent of the unit in the last place of binary32 at the magnitude of
`q`: 24 significant bits, and the least exponent -149 in the subnormal range. -/
def F32.ulpExp (q : ℚ) : Int := max (-149) (ilog2 q - 23)

/-- The rational `q` is a finite binary32 value: a whole multiple of its unit
in the last place, of magnitude below `2 ^ 128`. -/
def F32.representable (q : ℚ) : Prop :=
  (q / 2 ^ F32.ulpExp q).den = 1 ∧ |q| < 2 ^ 128

instance F32.decRepresentable (q : ℚ) : Decidable (F32.representable q) := by
  unfold F32.representable
  infer_instance

/-- A value of `F32` that a `float` can hold: a finite one is representable. -/
def F32.valid : F32 → Prop
  | .fin q => F32.representable q
  | _ => True

/-- Rounding of a rational to the nearest integer, a tie going to the even
one. -/
def roundEven (x : ℚ) : Int :=
  if x - ⌊x⌋ < 1 / 2 then ⌊x⌋
  else if 1 / 2 < x - ⌊x⌋ then ⌊x⌋ + 1
  else if ⌊x⌋ % 2 = 0 then ⌊x⌋
  else ⌊x⌋ + 1

/-- Rounding of an exact result to binary32, in the default mode (to nearest,
ties to even): the nearest multiple of the unit in the last place, or an
infinity when that multiple reaches `2 ^ 128` in magnitude. -/
def F32.round (q : ℚ) : F32 :=
  if 2 ^ 128 ≤ (roundEven (q / 2 ^ F32.ulpExp q) : ℚ) * 2 ^ F32.ulpExp q then .pinf
  else if (roundEven (q / 2 ^ F32.ulpExp q) : ℚ) * 2 ^ F32.ulpExp q ≤ -2 ^ 128 then .ninf
  else .fin ((roundEven (q / 2 ^ F32.ulpExp q) : ℚ) * 2 ^ F32.ulpExp q)

/-- The unary minus of `float`. -/
def F32.neg : F32 → F32
  | .nan => .nan
  | .pinf => .ninf
  | .ninf => .pinf
  | .fin q => .fin (-q)

/-- The operator `+` of `float`. -/
def F32.add : F32 → F32 → F32
  | .nan, _ => .nan
  | _, .nan => .nan
  | .pinf, .ninf => .nan
  | .ninf, .pinf => .nan
  | .pinf, _ => .pinf
  | _, .pinf => .pinf
  | .ninf, _ => .ninf
  | _, .ninf => .ninf
  | .fin x, .fin y => F32.round (x + y)

/-- The operator `-` of `float`. -/
def F32.sub (a b : F32) : F32 := F32.add a (F32.neg b)

/-- The operator `*` of `float`. -/
def F32.mul : F32 → F32 → F32
  | .nan, _ => .nan
  | _, .nan => .nan
  | .pinf, .pinf => .pinf
  | .pinf, .ninf => .ninf
  | .ninf, .pinf => .ninf
  | .ninf, .ninf => .pinf
  | .pinf, .fin y => if y = 0 then .nan else if 0 < y then .pinf else .ninf
  | .ninf, .fin y => if y = 0 then .nan else if 0 < y then .ninf else .pinf
  | .fin x, .pinf => if x = 0 then .nan else if 0 < x then .pinf else .ninf
  | .fin x, .ninf => if x = 0 then .nan else if 0 < x then .ninf else .pinf
  | .fin x, .fin y => F32.round (x * y)

/-- The operator `/` of `float`; a zero divisor, whose sign is not kept, is
read as the positive zero. -/
def F32.div : F32 → F32 → F32
  | .nan, _ => .nan
  | _, .nan => .nan
  | .pinf, .pinf => .nan
  | .pinf, .ninf => .nan
  | .ninf, .pinf => .nan
  | .ninf, .ninf => .nan
  | .pinf, .fin y => if 0 ≤ y then .pinf else .ninf
  | .ninf, .fin y => if 0 ≤ y then .ninf else .pinf
  | .fin _, .pinf => .fin 0
  | .fin _, .ninf => .fin 0
  | .fin x, .fin y =>
    if y = 0 then (if x = 0 then .nan else if 0 < x then .pinf else .ninf)
    else F32.round (x / y)

/-- The operator `<` of `float`: false when an operand is NaN. -/
def F32.lt : F32 → F32 → Bool
  | .nan, _ => false
  | _, .nan => false
  | .ninf, .ninf => false
  | .ninf, _ => true
  | _, .ninf => false
  | .pinf, _ => false
  | .fin _, .pinf => true
  | .fin x, .fin y => decide (x < y)

/-- The operator `<=` of `float`: false when an operand is NaN. -/
def F32.le : F32 → F32 → Bool
  | .nan, _ => false
  | _, .nan => false
  | .ninf, _ => true
  | _, .pinf => true
  | .pinf, _ => false
  | _, .ninf => false
  | .fin x, .fin y => decide (x ≤ y)

/-- The absolute value of a `float`. -/
def F32.abs : F32 → F32
  | .nan => .nan
  | .pinf => .pinf
  | .ninf => .pinf
  | .fin q => .fin |q|

/-- Conversion of a `float` to the 32-bit `int` a function returns: the
truncated value, undefined (`none`) for NaN, for an infinity and for a value
that does not fit. -/
def F32.toInt : F32 → Option Int
  | .fin q => floatToInt q
  | _ => none

/-! ## The reputation ledger and area damage in binary32

The functions whose results are values computed in `float`, embedded once
more with the arithmetic of `float` in place of exact arithmetic. -/

/-- The global `gameGlobalInfo` with the balances as the `float` values they
are. -/
structure Binary32.GameGlobalInfo where
  reputation_points : List F32
  deriving DecidableEq, Repr

/-- The method `SpaceObject::getReputationPoints` (lines 156-161). -/
def Binary32.getReputationPoints (g : Binary32.GameGlobalInfo) (self : SpaceObject) :
    Option Int :=
  if g.reputation_points.length < self.faction_id then some 0
  else
    match g.reputation_points[self.faction_id]? with
    | some balance => F32.toInt balance
    | none => none

/-- The method `SpaceObject::takeReputationPoints` (lines 163-171): the
returned flag and the global state after the call. -/
def Binary32.takeReputationPoints (g : Binary32.GameGlobalInfo) (self : SpaceObject)
    (amount : F32) : Option (Bool × Binary32.GameGlobalInfo) :=
  if g.reputation_points.length < self.faction_id then some (false, g)
  else
    match g.reputation_points[self.faction_id]? with
    | none => none
    | some balance =>
      if F32.lt balance amount then some (false, g)
      else some (true, ⟨g.reputation_points.set self.faction_id (F32.sub balance amount)⟩)

/-- The method `SpaceObject::addReputationPoints` (lines 178-185): the credit,
then the clamp of the stored balance at zero. -/
def Binary32.addReputationPoints (g : Binary32.GameGlobalInfo) (self : SpaceObject)
    (amount : F32) : Option Binary32.GameGlobalInfo :=
  if g.reputation_points.length < self.faction_id then some g
  else
    match g.reputation_points[self.faction_id]? with
    | none => none
    | some balance =>
      match (g.reputation_points.set self.faction_id (F32.add balance amount))[self.faction_id]? with
      | none => none
      | some stored =>
        if F32.lt stored (.fin 0) then
          some ⟨(g.reputation_points.set self.faction_id (F32.add balance amount)).set
            self.faction_id (.fin 0)⟩
        else some ⟨g.reputation_points.set self.faction_id (F32.add balance amount)⟩

/-- The method `SpaceObject::removeReputationPoints` (lines 173-176). -/
def Binary32.removeReputationPoints (g : Binary32.GameGlobalInfo) (self : SpaceObject)
    (amount : F32) : Option Binary32.GameGlobalInfo :=
  Binary32.addReputationPoints g self (F32.neg amount)

/-- One call that writes the ledger, with the calling entity and the amount. -/
inductive Binary32.LedgerCall
  | take (self : SpaceObject) (amount : F32)
  | add (self : SpaceObject) (amount : F32)
  | remove (self : SpaceObject) (amount : F32)

/-- The entity that makes a ledger call. -/
def Binary32.LedgerCall.caller : Binary32.LedgerCall → SpaceObject
  | .take self _ => self
  | .add self _ => self
  | .remove self _ => self

/-- The amount handed to a ledger call. -/
def Binary32.LedgerCall.amount : Binary32.LedgerCall → F32
  | .take _ amount => amount
  | .add _ amount => amount
  | .remove _ amount => amount

/-- The global state after one ledger call (the flag of a take is dropped). -/
def Binary32.LedgerCall.run (g : Binary32.GameGlobalInfo) :
    Binary32.LedgerCall → Option Binary32.GameGlobalInfo
  | .take self amount => (Binary32.takeReputationPoints g self amount).map Prod.snd
  | .add self amount => Binary32.addReputationPoints g self amount
  | .remove self amount => Binary32.removeReputationPoints g self amount

/-- The global state after a finite sequence of ledger calls, in order. -/
def Binary32.runLedgerCalls :
    List Binary32.LedgerCall → Binary32.GameGlobalInfo → Option Binary32.GameGlobalInfo
  | [], g => some g
  | c :: cs, g =>
    match Binary32.LedgerCall.run g c with
    | some g1 => Binary32.runLedgerCalls cs g1
    | none => none

/-- The clamp of lines 183-184 and of line 117: zero when the value compares
less than zero, the value itself otherwise (a NaN stays). -/
def F32.clampZero (s : F32) : F32 :=
  if F32.lt s (.fin 0) then .fin 0 else s

/-- A balance that is at least zero: a finite one that is, or plus infinity. -/
def F32.nonneg : F32 → Prop
  | .pinf => True
  | .fin q => 0 ≤ q
  | _ => False

/-- A finite `float`. -/
def F32.finite : F32 → Prop
  | .fin _ => True
  | _ => False

/-- Every balance of the ledger is at least zero. -/
def Binary32.LedgerNonneg (g : Binary32.GameGlobalInfo) : Prop :=
  ∀ b ∈ g.reputation_points, F32.nonneg b

/-- The type `sf::Vector2f` with its `float` coordinates. -/
abbrev Binary32.Vector2f := F32 × F32

/-- The operator `-` of `sf::Vector2f`. -/
def Binary32.vsub (a b : Binary32.Vector2f) : Binary32.Vector2f :=
  (F32.sub a.1 b.1, F32.sub a.2 b.2)

/-- The operator `+` of `sf::Vector2f`. -/
def Binary32.vadd (a b : Binary32.Vector2f) : Binary32.Vector2f :=
  (F32.add a.1 b.1, F32.add a.2 b.2)

/-- The call `getPosition()` on object `i`, with `float` coordinates. -/
def Binary32.getPosition (w : World) (i : ObjId) : Binary32.Vector2f :=
  (.fin (EmptyEpsilon.getPosition w i).1, .fin (EmptyEpsilon.getPosition w i).2)

/-- One invocation `obj->takeDamage(damage_amount, info)` with the amount as
the `float` it is. -/
structure Binary32.TakeDamageCall where
  obj : ObjId
  damage_amount : F32
  info : DamageInfo
  deriving DecidableEq, Repr

/-- Division of floats, with a zero divisor made an explicit failure. -/
def Binary32.fdiv (a b : F32) : Option F32 :=
  if b = .fin 0 then none else some (F32.div a b)

/-- The value of `dist` after lines 116-117 for the hit `c`, a `SpaceObject`
`obj`: the distance to the surface less `min_range`, set to zero when it
compares less than zero. -/
def Binary32.falloffDist (w : World) (length : Binary32.Vector2f → F32)
    (position : Binary32.Vector2f) (min_range : F32) (c : ObjId) (obj : SpaceObject) : F32 :=
  if F32.lt (F32.sub (F32.sub (length (Binary32.vsub position (Binary32.getPosition w c)))
      (.fin obj.getRadius)) min_range) (.fin 0) then .fin 0
  else F32.sub (F32.sub (length (Binary32.vsub position (Binary32.getPosition w c)))
      (.fin obj.getRadius)) min_range

/-- One iteration of the `foreach` of `damageArea` (lines 113-122) on the hit
`c`, after the invocations `calls` made so far. -/
def Binary32.damageAreaStep (w : World) (length : Binary32.Vector2f → F32)
    (position : Binary32.Vector2f) (blast_range min_damage max_damage : F32)
    (info : DamageInfo) (min_range : F32)
    (calls : List Binary32.TakeDamageCall) (c : ObjId) : Option (List Binary32.TakeDamageCall) :=
  match asSpaceObject w c with
  | none => some calls
  | some obj =>
    if F32.lt (Binary32.falloffDist w length position min_range c obj)
        (F32.sub blast_range min_range) then
      match Binary32.fdiv
          (F32.mul (F32.sub max_damage min_damage)
            (Binary32.falloffDist w length position min_range c obj))
          (F32.sub blast_range min_range) with
      | none => none
      | some q => some (calls ++ [⟨c, F32.sub max_damage q, info⟩])
    else some calls

/-- The loop of `damageArea` over a hit list. -/
def Binary32.damageAreaLoop (w : World) (length : Binary32.Vector2f → F32)
    (position : Binary32.Vector2f) (blast_range min_damage max_damage : F32)
    (info : DamageInfo) (min_range : F32) :
    List ObjId → List Binary32.TakeDamageCall → Option (List Binary32.TakeDamageCall)
  | [], calls => some calls
  | c :: rest, calls =>
    match Binary32.damageAreaStep w length position blast_range min_damage max_damage info
        min_range calls c with
    | none => none
    | some calls1 =>
      Binary32.damageAreaLoop w length position blast_range min_damage max_damage info
        min_range rest calls1

/-- The method `SpaceObject::damageArea` (lines 108-124) in binary32: the
`takeDamage` invocations it makes, in order, or `none` when it divides by
zero.  `queryArea` is `CollisionManager::queryArea` and `length` is
`sf::length`, both library functions outside this file. -/
def Binary32.damageArea (w : World)
    (queryArea : Binary32.Vector2f → Binary32.Vector2f → List ObjId)
    (length : Binary32.Vector2f → F32) (position : Binary32.Vector2f)
    (blast_range min_damage max_damage : F32) (info : DamageInfo) (min_range : F32) :
    Option (List Binary32.TakeDamageCall) :=
  Binary32.damageAreaLoop w length position blast_range min_damage max_damage info min_range
    (queryArea (Binary32.vsub position (blast_range, blast_range))
      (Binary32.vadd position (blast_range, blast_range))) []

/-- The invocation the falloff rule prescribes for the hit `c`, with every
operation an operation of `float`: none for a hit that is no `SpaceObject` or
does not compare inside the band, and otherwise
`max_damage - (max_damage - min_damage) * dist / (blast_range - min_range)`. -/
def Binary32.falloffCall (w : World) (length : Binary32.Vector2f → F32)
    (position : Binary32.Vector2f) (blast_range min_damage max_damage : F32)
    (info : DamageInfo) (min_range : F32) (c : ObjId) : Option Binary32.TakeDamageCall :=
  match asSpaceObject w c with
  | none => none
  | some obj =>
    if F32.lt (Binary32.falloffDist w length position min_range c obj)
        (F32.sub blast_range min_range) then
      some ⟨c, F32.sub max_damage
        (F32.div (F32.mul (F32.sub max_damage min_damage)
            (Binary32.falloffDist w length position min_range c obj))
          (F32.sub blast_range min_range)), info⟩
    else none

/-- A length function for the worked examples: it is the Euclidean length on
every vector that lies on a coordinate axis. -/
def Binary32.axisLength (v : Binary32.Vector2f) : F32 := F32.add (F32.abs v.1) (F32.abs v.2)

/-- A spatial index that returns the objects `0`, `1`, `2`, `3` for every box. -/
def Binary32.allFour : Binary32.Vector2f → Binary32.Vector2f → List ObjId :=
  fun _ _ => [0, 1, 2, 3]

/-- A world of four point objects (radius 0) on the first axis, at the
distances 0, 1, 3 and 8 from the origin. -/
def roundingWorld : World := fun i =>
  if i = 0 then some ⟨(0, 0), some ⟨0, 0, "", none⟩⟩
  else if i = 1 then some ⟨(1, 0), some ⟨0, 0, "", none⟩⟩
  else if i = 2 then some ⟨(3, 0), some ⟨0, 0, "", none⟩⟩
  else if i = 3 then some ⟨(8, 0), some ⟨0, 0, "", none⟩⟩
  else none

/-- A world of two point objects (radius 0) on the first axis: the object `0`
at the origin and the object `1` at the distance `7 - 2 ^ (-21)`, the
greatest `float` below 7. -/
def edgeWorld : World := fun i =>
  if i = 0 then some ⟨(0, 0), some ⟨0, 0, "", none⟩⟩
  else if i = 1 then some ⟨(14680063 / 2097152, 0), some ⟨0, 0, "", none⟩⟩
  else none

/-- A spatial index that returns the objects `0` and `1` for every box. -/
def Binary32.bothObjects : Binary32.Vector2f → Binary32.Vector2f → List ObjId :=
  fun _ _ => [0, 1]

/-! ## Worlds of the worked examples -/

/-- A world of three objects: the player ship `0` with call sign `P`, at the
origin with radius 1 and an inactive session, the object `1` with call sign
`A`, at `(3, 4)` with radius 2, and the object `2` with call sign `B`. -/
def hailWorld : World := fun i =>
  if i = 0 then some ⟨(0, 0), some ⟨1, 0, "P", some ⟨.CS_Inactive, none, "", ""⟩⟩⟩
  else if i = 1 then some ⟨(3, 4), some ⟨2, 1, "A", none⟩⟩
  else if i = 2 then some ⟨(7, 0), some ⟨2, 2, "B", none⟩⟩
  else none

/-- A world of four point objects (radius 0) on the first axis, at the
distances 0, 25, 50 and 60 from the origin. -/
def blastWorld : World := fun i =>
  if i = 0 then some ⟨(0, 0), some ⟨0, 0, "", none⟩⟩
  else if i = 1 then some ⟨(25, 0), some ⟨0, 0, "", none⟩⟩
  else if i = 2 then some ⟨(50, 0), some ⟨0, 0, "", none⟩⟩
  else if i = 3 then some ⟨(60, 0), some ⟨0, 0, "", none⟩⟩
  else none

/-- A spatial index that returns the objects `0`, `1`, `2`, `3` for every box. -/
def allFour : Vector2f → Vector2f → List ObjId := fun _ _ => [0, 1, 2, 3]

/-- A world for the proximity query: the querying object `0` at the origin
with radius 1, and the object `1` of radius 1 at `(9, 9)`, inside the box of
half-width 10 around the origin but farther than 10 + 1 from its centre. -/
def cornerWorld : World := fun i =>
  if i = 0 then some ⟨(0, 0), some ⟨1, 0, "", none⟩⟩
  else if i = 1 then some ⟨(9, 9), some ⟨1, 0, "", none⟩⟩
  else none

/-- A spatial index that returns the objects `0` and `1` for every box. -/
def bothObjects : Vector2f → Vector2f → List ObjId := fun _ _ => [0, 1]

/-- A world like `hailWorld` in which the player ship `0` has an open channel
with the object `2`. -/
def busyWorld : World := fun i =>
  if i = 0 then some ⟨(0, 0), some ⟨1, 0, "P", some ⟨.CS_ChannelOpen, some 2, "B", "x"⟩⟩⟩
  else if i = 1 then some ⟨(3, 4), some ⟨2, 1, "A", none⟩⟩
  else if i = 2 then some ⟨(7, 0), some ⟨2, 2, "B", none⟩⟩
  else none

/-- An entity of faction 0 (radius 1, no call sign, not a player ship). -/
def factionZero : SpaceObject := ⟨1, 0, "", none⟩

/-- An entity of faction 1 (radius 1, no call sign, not a player ship). -/
def factionOne : SpaceObject := ⟨1, 1, "", none⟩

/-- A relation table of two factions whose rows disagree: faction 0 holds
faction 1 for an enemy, faction 1 holds faction 0 for a friend. -/
def lopsidedTable : List FactionInfo :=
  [⟨[.FVF_Friendly, .FVF_Enemy]⟩, ⟨[.FVF_Friendly, .FVF_Neutral]⟩]

/-- A world for the enemy check: the querying object `0` of faction 0 at the
origin, an object `1` of faction 1 at `(9, 9)`, out of range 10, and an
object `2` of faction 1 at `(3, 4)`, in range. -/
def enemyWorld : World := fun i =>
  if i = 0 then some ⟨(0, 0), some ⟨1, 0, "", none⟩⟩
  else if i = 1 then some ⟨(9, 9), some ⟨1, 1, "", none⟩⟩
  else if i = 2 then some ⟨(3, 4), some ⟨1, 1, "", none⟩⟩
  else none

/-- A spatial index that returns the objects `0`, `1`, `2` for every box. -/
def allThree : Vector2f → Vector2f → List ObjId := fun _ _ => [0, 1, 2]

/-! ## Auxiliary facts on the heap -/

theorem modifyPlayer_ne (w : World) (t : ObjId) (f : PlayerSpaceship → PlayerSpaceship)
    (i : ObjId) (h : i ≠ t) : modifyPlayer w t f i = w i := by
  simp [modifyPlayer, h]

theorem modifyPlayer_player (w : World) (t : ObjId) (f : PlayerSpaceship → PlayerSpaceship)
    (col : Collisionable) (so : SpaceObject) (ps : PlayerSpaceship)
    (hw : w t = some col) (hso : col.spaceObject = some so) (hps : so.player = some ps) :
    modifyPlayer w t f t = some (withPlayer col so (f ps)) := by
  simp [modifyPlayer, hw, hso, hps]

theorem asPlayerSpaceship_eq_some (w : World) (t : ObjId) (ps : PlayerSpaceship) :
    asPlayerSpaceship w t = some ps ↔
      ∃ col so, w t = some col ∧ col.spaceObject = some so ∧ so.player = some ps := by
  unfold asPlayerSpaceship asSpaceObject
  constructor
  · intro h
    cases hw : w t with
    | none => simp [hw] at h
    | some col =>
      cases hso : col.spaceObject with
      | none => simp [hw, hso] at h
      | some so => exact ⟨col, so, rfl, hso, by simpa [hw, hso] using h⟩
  · rintro ⟨col, so, hw, hso, hps⟩
    simp [hw, hso, hps]

theorem getCallSign_modifyPlayer (w : World) (t : ObjId)
    (f : PlayerSpaceship → PlayerSpaceship) (i : ObjId) :
    getCallSign (modifyPlayer w t f) i = getCallSign w i := by
  by_cases h : i = t
  · subst h
    cases hw : w i with
    | none => simp [getCallSign, asSpaceObject, modifyPlayer, hw]
    | some col =>
      cases hso : col.spaceObject with
      | none => simp [getCallSign, asSpaceObject, modifyPlayer, hw, hso]
      | some so =>
        cases hps : so.player with
        | none => simp [getCallSign, asSpaceObject, modifyPlayer, hw, hso, hps]
        | some ps => simp [getCallSign, asSpaceObject, modifyPlayer, hw, hso, hps, withPlayer]
  · simp [getCallSign, asSpaceObject, modifyPlayer, h]

theorem commsSwitch_eq_true (self : ObjId) (ps : PlayerSpaceship) :
    commsSwitch self ps = true ↔
      ((ps.comms_state = .CS_Inactive ∨ ps.comms_state = .CS_ChannelFailed
          ∨ ps.comms_state = .CS_ChannelBroken)
        ∨ ((ps.comms_state = .CS_OpeningChannel ∨ ps.comms_state = .CS_BeingHailed)
          ∧ ps.comms_target = some self)) := by
  unfold commsSwitch
  cases h : ps.comms_state <;> simp

/-- The net effect of a hail that passes the switch: the four assignments of
lines 218-221 leave the session of `t` as described and keep the rest. -/
theorem sendCommsMessage_pass (w : World) (self t : ObjId) (message : String)
    (col : Collisionable) (so : SpaceObject) (ps : PlayerSpaceship)
    (hw : w t = some col) (hso : col.spaceObject = some so) (hps : so.player = some ps)
    (hsw : commsSwitch self ps = true) :
    (sendCommsMessage w self (some t) message).1 = true
      ∧ (sendCommsMessage w self (some t) message).2 t
          = some (withPlayer col so
              ⟨.CS_BeingHailed, some self, getCallSign w self, message⟩)
      ∧ ∀ i, i ≠ t → (sendCommsMessage w self (some t) message).2 i = w i := by
  have hp : asPlayerSpaceship w t = some ps :=
    (asPlayerSpaceship_eq_some w t ps).2 ⟨col, so, hw, hso, hps⟩
  refine ⟨by simp [sendCommsMessage, hp, hsw], ?_, ?_⟩
  · simp only [sendCommsMessage, hp, hsw, if_true]
    rw [getCallSign_modifyPlayer]
    have h1 := modifyPlayer_player w t (fun p => { p with comms_target := some self })
      col so ps hw hso hps
    have h2 := modifyPlayer_player _ t
      (fun p => { p with comms_target_name := getCallSign w self }) _ _ _ h1 rfl rfl
    have h3 := modifyPlayer_player _ t (fun p => { p with comms_state := .CS_BeingHailed })
      _ _ _ h2 rfl rfl
    have h4 := modifyPlayer_player _ t
      (fun p => { p with comms_incomming_message := message }) _ _ _ h3 rfl rfl
    rw [h4]
    rfl
  · intro i hi
    simp only [sendCommsMessage, hp, hsw, if_true]
    rw [modifyPlayer_ne _ _ _ _ hi, modifyPlayer_ne _ _ _ _ hi, modifyPlayer_ne _ _ _ _ hi,
      modifyPlayer_ne _ _ _ _ hi]

/-- A hail that does not pass the switch, or has no target, returns false and
the world it was given. -/
theorem sendCommsMessage_false_world (w : World) (self : ObjId) (target : Option ObjId)
    (message : String) (h : (sendCommsMessage w self target message).1 = false) :
    (sendCommsMessage w self target message).2 = w := by
  cases target with
  | none => rfl
  | some t =>
    cases hp : asPlayerSpaceship w t with
    | none => simp [sendCommsMessage, hp]
    | some ps =>
      by_cases hsw : commsSwitch self ps = true
      · simp [sendCommsMessage, hp, hsw] at h
      · simp [sendCommsMessage, hp, hsw]

/-! ## The hail state machine: theorems -/

/-- C1: a hail returns true exactly when the target is present and its comms
state is Inactive, ChannelFailed or ChannelBroken, or is OpeningChannel or
BeingHailed with this same source recorded as comms target; it returns false
in every other case. -/
theorem sendCommsMessage_true_iff (w : World) (self : ObjId) (target : Option ObjId)
    (message : String) :
    ((sendCommsMessage w self target message).1 = true ↔
      ∃ t ps, target = some t ∧ asPlayerSpaceship w t = some ps ∧
        ((ps.comms_state = .CS_Inactive ∨ ps.comms_state = .CS_ChannelFailed
            ∨ ps.comms_state = .CS_ChannelBroken)
          ∨ ((ps.comms_state = .CS_OpeningChannel ∨ ps.comms_state = .CS_BeingHailed)
            ∧ ps.comms_target = some self)))
    ∧ ((sendCommsMessage w self target message).1 = false ↔
      (target = none ∨ ∃ t, target = some t ∧
        (asPlayerSpaceship w t = none ∨ ∃ ps, asPlayerSpaceship w t = some ps ∧
          (((ps.comms_state = .CS_OpeningChannel ∨ ps.comms_state = .CS_BeingHailed)
              ∧ ps.comms_target ≠ some self)
            ∨ ps.comms_state = .CS_BeingHailedByGM ∨ ps.comms_state = .CS_ChannelOpen
            ∨ ps.comms_state = .CS_ChannelOpenPlayer
            ∨ ps.comms_state = .CS_ChannelOpenGM)))) := by
  cases target with
  | none => simp [sendCommsMessage]
  | some t =>
    cases hp : asPlayerSpaceship w t with
    | none => simp [sendCommsMessage, hp]
    | some ps =>
      have hret : (sendCommsMessage w self (some t) message).1 = commsSwitch self ps := by
        unfold sendCommsMessage
        by_cases hsw : commsSwitch self ps = true <;> simp [hp, hsw]
      constructor
      · rw [hret, commsSwitch_eq_true]
        simp [hp]
      · rw [hret]
        unfold commsSwitch
        cases h : ps.comms_state <;> simp [hp, h]

/-- A hail that returns true had a live player ship as target, and passed the
switch. -/
theorem sendCommsMessage_true_elim (w : World) (self : ObjId) (target : Option ObjId)
    (message : String) (h : (sendCommsMessage w self target message).1 = true) :
    ∃ t col so ps, target = some t ∧ w t = some col ∧ col.spaceObject = some so
      ∧ so.player = some ps ∧ commsSwitch self ps = true := by
  cases target with
  | none => simp [sendCommsMessage] at h
  | some t =>
    cases hp : asPlayerSpaceship w t with
    | none => simp [sendCommsMessage, hp] at h
    | some ps =>
      obtain ⟨col, so, hw, hso, hps⟩ := (asPlayerSpaceship_eq_some w t ps).1 hp
      refine ⟨t, col, so, ps, rfl, hw, hso, hps, ?_⟩
      by_cases hsw : commsSwitch self ps = true
      · exact hsw
      · simp [sendCommsMessage, hp, hsw] at h

/-- C2, as the code has it: after a hail that returns true the session of the
target is BeingHailed, with the source as comms target, the call sign of the
source as target name and the message as incoming message; every other field
of the target and every object other than the target is unchanged, so no field
of the source changes when the source is not the target itself. -/
theorem sendCommsMessage_effect (w : World) (self : ObjId) (target : Option ObjId)
    (message : String) (h : (sendCommsMessage w self target message).1 = true) :
    ∃ t col so ps, target = some t ∧ w t = some col ∧ col.spaceObject = some so
      ∧ so.player = some ps
      ∧ (sendCommsMessage w self target message).2 t
          = some (withPlayer col so ⟨.CS_BeingHailed, some self, getCallSign w self, message⟩)
      ∧ (∀ i, i ≠ t → (sendCommsMessage w self target message).2 i = w i)
      ∧ (self ≠ t → (sendCommsMessage w self target message).2 self = w self) := by
  obtain ⟨t, col, so, ps, rfl, hw, hso, hps, hsw⟩ :=
    sendCommsMessage_true_elim w self target message h
  obtain ⟨-, h2, h3⟩ := sendCommsMessage_pass w self t message col so ps hw hso hps hsw
  exact ⟨t, col, so, ps, rfl, hw, hso, hps, h2, h3, fun hne => h3 self hne⟩

/-- C2, an instance: the object `1` hails the inactive player ship `0`. -/
theorem sendCommsMessage_effect_witness :
    (sendCommsMessage hailWorld 1 (some 0) "hi").1 = true
      ∧ ∃ t col so ps, some 0 = some t ∧ hailWorld t = some col ∧ col.spaceObject = some so
        ∧ so.player = some ps
        ∧ (sendCommsMessage hailWorld 1 (some 0) "hi").2 t
            = some (withPlayer col so ⟨.CS_BeingHailed, some 1, getCallSign hailWorld 1, "hi"⟩)
        ∧ (∀ i, i ≠ t → (sendCommsMessage hailWorld 1 (some 0) "hi").2 i = hailWorld i)
        ∧ (1 ≠ t → (sendCommsMessage hailWorld 1 (some 0) "hi").2 1 = hailWorld 1) :=
  ⟨by decide, sendCommsMessage_effect hailWorld 1 (some 0) "hi" (by decide)⟩

/-- C2, counterexample to "no field of the source changes": when the player
ship `0` hails itself the hail returns true and the session fields of the
source, which is the target, change. -/
theorem sendCommsMessage_self_hail_changes_source :
    (sendCommsMessage hailWorld 0 (some 0) "hi").1 = true
      ∧ (sendCommsMessage hailWorld 0 (some 0) "hi").2 0 ≠ hailWorld 0 := by
  decide

/-- C3: when a hail from `A` succeeds, an immediately following hail from a
different source `B` returns false and changes nothing, and the session of the
target is BeingHailed with `A` as comms target, the call sign of `A` as target
name and the message of `A` as incoming message. -/
theorem sendCommsMessage_exclusive (w : World) (A B : ObjId) (target : Option ObjId)
    (m1 m2 : String) (hAB : A ≠ B) (h : (sendCommsMessage w A target m1).1 = true) :
    (sendCommsMessage (sendCommsMessage w A target m1).2 B target m2).1 = false
      ∧ (sendCommsMessage (sendCommsMessage w A target m1).2 B target m2).2
          = (sendCommsMessage w A target m1).2
      ∧ ∃ t, target = some t
        ∧ asPlayerSpaceship (sendCommsMessage (sendCommsMessage w A target m1).2 B target m2).2 t
            = some ⟨.CS_BeingHailed, some A, getCallSign w A, m1⟩ := by
  obtain ⟨t, col, so, ps, rfl, hw, hso, hps, hsw⟩ :=
    sendCommsMessage_true_elim w A target m1 h
  obtain ⟨-, h2, -⟩ := sendCommsMessage_pass w A t m1 col so ps hw hso hps hsw
  have hp1 : asPlayerSpaceship (sendCommsMessage w A (some t) m1).2 t
      = some ⟨.CS_BeingHailed, some A, getCallSign w A, m1⟩ :=
    (asPlayerSpaceship_eq_some _ t _).2 ⟨_, _, h2, rfl, rfl⟩
  have hB : (sendCommsMessage (sendCommsMessage w A (some t) m1).2 B (some t) m2).1 = false := by
    have hsw2 : commsSwitch B ⟨.CS_BeingHailed, some A, getCallSign w A, m1⟩ = false := by
      simp [commsSwitch, hAB]
    simp only [sendCommsMessage] at hp1 ⊢
    simp only [hp1, hsw2]
    simp
  have hW := sendCommsMessage_false_world _ B (some t) m2 hB
  exact ⟨hB, hW, t, rfl, by rw [hW]; exact hp1⟩

/-- C3, an instance: `1` hails the player ship `0`, then `2` hails it. -/
theorem sendCommsMessage_exclusive_witness :
    (1 : ObjId) ≠ 2 ∧ (sendCommsMessage hailWorld 1 (some 0) "a").1 = true
      ∧ (sendCommsMessage (sendCommsMessage hailWorld 1 (some 0) "a").2 2 (some 0) "b").1 = false
      ∧ asPlayerSpaceship
          (sendCommsMessage (sendCommsMessage hailWorld 1 (some 0) "a").2 2 (some 0) "b").2 0
          = some ⟨.CS_BeingHailed, some 1, "A", "a"⟩ := by
  have h := sendCommsMessage_exclusive hailWorld 1 2 (some 0) "a" "b" (by decide) (by decide)
  obtain ⟨h1, -, t, ht, h3⟩ := h
  cases ht
  exact ⟨by decide, by decide, h1, h3⟩

/-! ## The reputation ledger: theorems -/

/-- One iteration of the loop of `damageArea` never divides by zero, and adds
to the invocations made so far the one the falloff rule prescribes. -/
theorem damageAreaStep_eq (w : World) (length : Vector2f → ℚ) (position : Vector2f)
    (blast_range min_damage max_damage : ℚ) (info : DamageInfo) (min_range : ℚ)
    (calls : List TakeDamageCall) (c : ObjId) :
    damageAreaStep w length position blast_range min_damage max_damage info min_range calls c
      = some (calls ++
          (falloffCall w length position blast_range min_damage max_damage info
            min_range c).toList) := by
  unfold damageAreaStep falloffCall
  cases hso : asSpaceObject w c with
  | none => simp
  | some obj =>
    have hdist : (if length (position - getPosition w c) - obj.getRadius - min_range < 0 then 0
        else length (position - getPosition w c) - obj.getRadius - min_range)
        = falloffDist w length position min_range c obj := by
      unfold falloffDist
      split
      · next hneg => exact (max_eq_left (le_of_lt hneg)).symm
      · next hpos => exact (max_eq_right (not_lt.mp hpos)).symm
    simp only [hdist]
    by_cases hband : falloffDist w length position min_range c obj < blast_range - min_range
    · have hne : blast_range - min_range ≠ 0 := by
        have h0 : (0 : ℚ) ≤ falloffDist w length position min_range c obj := le_max_left _ _
        exact ne_of_gt (lt_of_le_of_lt h0 hband)
      simp [hband, fdiv, hne, mul_div_assoc]
    · simp [hband]

/-- The loop of `damageArea` returns, after the invocations made so far, the
invocations the falloff rule prescribes for the hits, in the order of the
hit list. -/
theorem damageAreaLoop_eq (w : World) (length : Vector2f → ℚ) (position : Vector2f)
    (blast_range min_damage max_damage : ℚ) (info : DamageInfo) (min_range : ℚ)
    (hitList : List ObjId) (calls : List TakeDamageCall) :
    damageAreaLoop w length position blast_range min_damage max_damage info min_range
        hitList calls
      = some (calls ++ hitList.filterMap
          (falloffCall w length position blast_range min_damage max_damage info min_range)) := by
  induction hitList generalizing calls with
  | nil => simp [damageAreaLoop]
  | cons c rest ih =>
    simp only [damageAreaLoop, damageAreaStep_eq, ih, List.filterMap_cons]
    cases falloffCall w length position blast_range min_damage max_damage info min_range c <;>
      simp

/-- C8, as the code has it: when blast_range equals min_range, `damageArea`
divides by nothing and invokes `takeDamage` on no object at all. -/
theorem damageArea_degenerate (w : World) (queryArea : Vector2f → Vector2f → List ObjId)
    (length : Vector2f → ℚ) (position : Vector2f)
    (range min_damage max_damage : ℚ) (info : DamageInfo) :
    damageArea w queryArea length position range min_damage max_damage info range
      = some [] := by
  unfold damageArea
  rw [damageAreaLoop_eq]
  have hnone : ∀ c, falloffCall w length position range min_damage max_damage info range c
      = none := by
    intro c
    unfold falloffCall
    cases asSpaceObject w c with
    | none => rfl
    | some obj =>
      have h0 : ¬ falloffDist w length position range c obj < range - range := by
        rw [sub_self]
        exact not_lt.mpr (le_max_left _ _)
      simp only [h0, if_false]
  simp [hnone]

/-- C8, counterexample to "everything within min_range takes max_damage": with
blast_range = min_range = 50 and max_damage 100 the object `0`, a SpaceObject
of the area query that lies at the epicenter (distance 0), gets no
`takeDamage` at all. -/
theorem damageArea_degenerate_epicenter_untouched :
    asSpaceObject blastWorld 0 = some ⟨0, 0, "", none⟩
      ∧ (0 : ObjId) ∈ allFour ((0, 0) - (50, 50)) ((0, 0) + (50, 50))
      ∧ axisLength ((0, 0) - getPosition blastWorld 0) - 0 - 50 ≤ 0
      ∧ damageArea blastWorld allFour axisLength (0, 0) 50 10 100 ⟨.DT_Energy⟩ 50 = some [] := by
  refine ⟨rfl, by simp [allFour], ?_, ?_⟩
  · simp only [blastWorld, getPosition, axisLength]
    norm_num
  · unfold damageArea
    rw [damageAreaLoop_eq]
    simp only [allFour, List.filterMap_cons, List.filterMap_nil, falloffCall, falloffDist,
      asSpaceObject, blastWorld, getPosition, axisLength, SpaceObject.getRadius]
    norm_num

/-! ## The proximity query: theorems -/

/-- The loop of `getObjectsInRange` appends to `ret`, in the order of the hit
list, the candidates that pass the test `inCircle`. -/
theorem foldl_getObjectsInRangeStep (w : World) (self : ObjId) (range : ℚ)
    (hitList : List ObjId) (ret : List ObjId) :
    hitList.foldl (getObjectsInRangeStep w self range) ret
      = ret ++ hitList.filter (inCircle w self range) := by
  induction hitList generalizing ret with
  | nil => simp
  | cons c rest ih =>
    rw [List.foldl_cons, ih]
    unfold getObjectsInRangeStep inCircle SpaceObject.getRadius
    cases hso : asSpaceObject w c with
    | none => simp [List.filter_cons, inCircle, hso]
    | some obj =>
      by_cases hlt : vecLess (getPosition w self - getPosition w c) (range + obj.object_radius)
          = true
      · simp [List.filter_cons, inCircle, hso, hlt]
      · simp [List.filter_cons, inCircle, hso, hlt]

/-- The test `inCircle` on the querying entity itself: its distance to itself
is zero, so it passes exactly when it is a SpaceObject and `range` plus its
radius is positive. -/
theorem inCircle_self (w : World) (self : ObjId) (range : ℚ) :
    inCircle w self range self = true ↔
      ∃ obj, asSpaceObject w self = some obj ∧ 0 < range + obj.object_radius := by
  unfold inCircle
  cases hso : asSpaceObject w self with
  | none => simp
  | some obj =>
    simp only [vecLess, sub_self, Prod.fst_zero, Prod.snd_zero, mul_zero, add_zero,
      decide_eq_true_eq, Option.some.injEq, exists_eq_left']
    constructor
    · exact fun h => h.1
    · exact fun h => ⟨h, mul_pos h h⟩

/-- C9, counterexample to "the result does not contain the querying entity":
the spatial index returns the querying object `0` among the candidates, and
`getObjectsInRange(10)` returns it (and drops the object `1` near the corner
of the box). -/
theorem getObjectsInRange_returns_self :
    (0 : ObjId) ∈ bothObjects (getPosition cornerWorld 0 - (10, 10))
        (getPosition cornerWorld 0 + (10, 10))
      ∧ getObjectsInRange cornerWorld bothObjects 0 10 = [0] := by
  refine ⟨by simp [bothObjects], ?_⟩
  unfold getObjectsInRange
  rw [foldl_getObjectsInRangeStep]
  simp only [bothObjects, List.filter_cons, List.filter_nil, inCircle, asSpaceObject,
    cornerWorld, getPosition, vecLess]
  norm_num

/-- C9, as the code has it: `getObjectsInRange` does not exclude the querying
entity; the result contains it exactly when the spatial index returns it
among the candidates and `range` plus its own radius is positive. -/
theorem getObjectsInRange_self_mem_iff (w : World)
    (queryArea : Vector2f → Vector2f → List ObjId) (self : ObjId) (range : ℚ) :
    self ∈ getObjectsInRange w queryArea self range ↔
      (self ∈ queryArea (getPosition w self - (range, range))
          (getPosition w self + (range, range))
        ∧ ∃ obj, asSpaceObject w self = some obj ∧ 0 < range + obj.object_radius) := by
  unfold getObjectsInRange
  rw [foldl_getObjectsInRangeStep, List.nil_append, List.mem_filter, inCircle_self]

/-- A hail leaves the call sign of every object as it was. -/
theorem getCallSign_sendCommsMessage (w : World) (self : ObjId) (target : Option ObjId)
    (message : String) (i : ObjId) :
    getCallSign (sendCommsMessage w self target message).2 i = getCallSign w i := by
  cases target with
  | none => rfl
  | some t =>
    cases hp : asPlayerSpaceship w t with
    | none => simp [sendCommsMessage, hp]
    | some ps =>
      by_cases hsw : commsSwitch self ps = true
      · simp only [sendCommsMessage, hp, hsw, if_true]
        rw [getCallSign_modifyPlayer, getCallSign_modifyPlayer, getCallSign_modifyPlayer,
          getCallSign_modifyPlayer]
      · simp [sendCommsMessage, hp, hsw]

/-- C14: whenever a hail returns false (target absent, channel busy with a
different party, or an active channel), the world is exactly what it was
before the call, and so are the comms state, the recorded comms target, the
target name and the pending incoming message of every player ship. -/
theorem sendCommsMessage_failed_atomic (w : World) (self : ObjId) (target : Option ObjId)
    (message : String) (h : (sendCommsMessage w self target message).1 = false) :
    (sendCommsMessage w self target message).2 = w
      ∧ ∀ t, asPlayerSpaceship (sendCommsMessage w self target message).2 t
          = asPlayerSpaceship w t := by
  have hw := sendCommsMessage_false_world w self target message h
  refine ⟨hw, ?_⟩
  intro t
  rw [hw]

/-- C14, an instance: the object `1` hails the player ship `0`, whose channel
with `2` is open; the hail fails and the session is as before. -/
theorem sendCommsMessage_failed_atomic_witness :
    (sendCommsMessage busyWorld 1 (some 0) "hi").1 = false
      ∧ asPlayerSpaceship (sendCommsMessage busyWorld 1 (some 0) "hi").2 0
          = some ⟨.CS_ChannelOpen, some 2, "B", "x"⟩ := by
  have h := sendCommsMessage_failed_atomic busyWorld 1 (some 0) "hi" (by decide)
  refine ⟨by decide, ?_⟩
  rw [h.2 0]
  decide

/-- C15: when a hail from `A` with message `m` succeeds, the same hail repeated
at once succeeds too and leaves the world, hence the session of the target,
exactly as the first hail left it. -/
theorem sendCommsMessage_rehail_idempotent (w : World) (A : ObjId) (target : Option ObjId)
    (m : String) (h : (sendCommsMessage w A target m).1 = true) :
    (sendCommsMessage (sendCommsMessage w A target m).2 A target m).1 = true
      ∧ (sendCommsMessage (sendCommsMessage w A target m).2 A target m).2
          = (sendCommsMessage w A target m).2 := by
  obtain ⟨t, col, so, ps, rfl, hw, hso, hps, hsw⟩ :=
    sendCommsMessage_true_elim w A target m h
  obtain ⟨-, h2, -⟩ := sendCommsMessage_pass w A t m col so ps hw hso hps hsw
  have hsw1 : commsSwitch A ⟨.CS_BeingHailed, some A, getCallSign w A, m⟩ = true := by
    simp [commsSwitch]
  obtain ⟨k1, k2, k3⟩ := sendCommsMessage_pass (sendCommsMessage w A (some t) m).2 A t m
    _ _ _ h2 rfl rfl hsw1
  refine ⟨k1, ?_⟩
  funext i
  by_cases hi : i = t
  · subst hi
    rw [k2, h2, getCallSign_sendCommsMessage]
    rfl
  · exact k3 i hi

/-- C15, an instance: the object `1` hails the inactive player ship `0` twice
with the same message. -/
theorem sendCommsMessage_rehail_idempotent_witness :
    (sendCommsMessage hailWorld 1 (some 0) "hi").1 = true
      ∧ (sendCommsMessage (sendCommsMessage hailWorld 1 (some 0) "hi").2 1 (some 0) "hi").1 = true
      ∧ asPlayerSpaceship
          (sendCommsMessage (sendCommsMessage hailWorld 1 (some 0) "hi").2 1 (some 0) "hi").2 0
          = some ⟨.CS_BeingHailed, some 1, "A", "hi"⟩ := by
  have h := sendCommsMessage_rehail_idempotent hailWorld 1 (some 0) "hi" (by decide)
  refine ⟨by decide, h.1, ?_⟩
  rw [h.2]
  decide

/-- C17: `openCommsTo(target)` returns what `sendCommsMessage(target, "")`
returns and leaves the same world; when it succeeds the session of the target
is BeingHailed by this source with the empty string as incoming message. -/
theorem openCommsTo_eq_sendCommsMessage (w : World) (self : ObjId) (target : Option ObjId) :
    openCommsTo w self target = sendCommsMessage w self target ""
      ∧ ((openCommsTo w self target).1 = true →
        ∃ t, target = some t
          ∧ asPlayerSpaceship (openCommsTo w self target).2 t
              = some ⟨.CS_BeingHailed, some self, getCallSign w self, ""⟩) := by
  refine ⟨rfl, ?_⟩
  intro h
  obtain ⟨t, col, so, ps, rfl, hw, hso, hps, hsw⟩ :=
    sendCommsMessage_true_elim w self target "" h
  obtain ⟨-, h2, -⟩ := sendCommsMessage_pass w self t "" col so ps hw hso hps hsw
  exact ⟨t, rfl, (asPlayerSpaceship_eq_some _ t _).2 ⟨_, _, h2, rfl, rfl⟩⟩

/-- C17, an instance: the object `1` opens comms to the inactive player ship
`0`. -/
theorem openCommsTo_eq_sendCommsMessage_witness :
    (openCommsTo hailWorld 1 (some 0)).1 = true
      ∧ openCommsTo hailWorld 1 (some 0) = sendCommsMessage hailWorld 1 (some 0) ""
      ∧ asPlayerSpaceship (openCommsTo hailWorld 1 (some 0)).2 0
          = some ⟨.CS_BeingHailed, some 1, "A", ""⟩ := by
  have h := openCommsTo_eq_sendCommsMessage hailWorld 1 (some 0)
  obtain ⟨t, ht, hs⟩ := h.2 (by decide)
  cases ht
  exact ⟨by decide, h.1, hs⟩

/-! ## The reputation ledger: bounds and frame -/

/-- A faction id equal to the size of the ledger passes the test
`size() < faction_id` of each function, which then reads the vector past its
end. -/
theorem reputation_at_size (g : GameGlobalInfo) (self : SpaceObject) (amount : ℚ)
    (h : self.faction_id = g.reputation_points.length) :
    getReputationPoints g self = none
      ∧ takeReputationPoints g self amount = none
      ∧ addReputationPoints g self amount = none := by
  have hnot : ¬ g.reputation_points.length < self.faction_id := by omega
  have hget : g.reputation_points[self.faction_id]? = none :=
    List.getElem?_eq_none (by omega)
  simp [getReputationPoints, takeReputationPoints, addReputationPoints, hnot, hget]

/-- C12, the code at the failing input: on the ledger `[100]`, of size 1, an
entity of faction id 1 passes the bounds test of the get, of the take and of
the add, and each of them reads `reputation_points[1]`, past the end of the
ledger, where the claim has them return 0, return false and do nothing. -/
theorem reputation_faction_id_at_size_reads_past_ledger :
    factionOne.faction_id = (⟨[100]⟩ : GameGlobalInfo).reputation_points.length
      ∧ ¬ (⟨[100]⟩ : GameGlobalInfo).reputation_points.length < factionOne.faction_id
      ∧ (⟨[100]⟩ : GameGlobalInfo).reputation_points[factionOne.faction_id]? = none
      ∧ getReputationPoints ⟨[100]⟩ factionOne = none
      ∧ takeReputationPoints ⟨[100]⟩ factionOne 5 = none
      ∧ addReputationPoints ⟨[100]⟩ factionOne 5 = none := by
  obtain ⟨h1, h2, h3⟩ := reputation_at_size ⟨[100]⟩ factionOne 5 rfl
  exact ⟨rfl, by decide, rfl, h1, h2, h3⟩

/-- The lookup of a relation at a row and an entry that exist. -/
theorem factionState_inside (factionInfo : List FactionInfo) (i j : Nat) (row : FactionInfo)
    (st : EFactionVsFactionState) (hrow : factionInfo[i]? = some row)
    (hst : row.states[j]? = some st) : factionState factionInfo i j = some st := by
  simp [factionState, hrow, hst]

/-- C13: for a relation table and two entities whose faction ids are inside
it, `isEnemy(other)` on `self` is true exactly when the entry of the row of
the faction of `self` at the faction id of `other` is Enemy, and `isFriendly`
exactly when it is Friendly; no other row is consulted, and for some table
and pair the one is the enemy of the other but not the other way round. -/
theorem isEnemy_isFriendly_spec (factionInfo : List FactionInfo) (self other : SpaceObject)
    (row : FactionInfo) (st : EFactionVsFactionState)
    (hrow : factionInfo[self.faction_id]? = some row)
    (hst : row.states[other.faction_id]? = some st) :
    isEnemy factionInfo self other = some (decide (st = .FVF_Enemy))
      ∧ isFriendly factionInfo self other = some (decide (st = .FVF_Friendly))
      ∧ (∀ factionInfo2 : List FactionInfo, factionInfo2[self.faction_id]? = some row →
          isEnemy factionInfo2 self other = isEnemy factionInfo self other
            ∧ isFriendly factionInfo2 self other = isFriendly factionInfo self other)
      ∧ (∃ (table : List FactionInfo) (A B : SpaceObject),
          isEnemy table A B = some true ∧ isEnemy table B A = some false) := by
  have h1 := factionState_inside factionInfo _ _ row st hrow hst
  refine ⟨by simp [isEnemy, h1], by simp [isFriendly, h1], ?_, ?_⟩
  · intro factionInfo2 hrow2
    have h2 := factionState_inside factionInfo2 _ _ row st hrow2 hst
    simp [isEnemy, isFriendly, h1, h2]
  · exact ⟨lopsidedTable, factionZero, factionOne, by decide, by decide⟩

/-- C13, an instance: in the table whose rows disagree, faction 0 has the
entry Enemy at faction 1, so `isEnemy` holds and `isFriendly` does not; the
row of faction 1 has the entry Friendly at faction 0. -/
theorem isEnemy_isFriendly_spec_witness :
    lopsidedTable[factionZero.faction_id]? = some ⟨[.FVF_Friendly, .FVF_Enemy]⟩
      ∧ isEnemy lopsidedTable factionZero factionOne = some true
      ∧ isFriendly lopsidedTable factionZero factionOne = some false
      ∧ isEnemy lopsidedTable factionOne factionZero = some false
      ∧ isFriendly lopsidedTable factionOne factionZero = some true := by
  have h := isEnemy_isFriendly_spec lopsidedTable factionZero factionOne
    ⟨[.FVF_Friendly, .FVF_Enemy]⟩ .FVF_Enemy rfl rfl
  have k := isEnemy_isFriendly_spec lopsidedTable factionOne factionZero
    ⟨[.FVF_Friendly, .FVF_Neutral]⟩ .FVF_Friendly rfl rfl
  exact ⟨rfl, h.1, h.2.1, k.1, k.2.1⟩

/-- The loop of `areEnemiesInRange`, on candidates whose faction ids are inside
the row of the querying entity, returns whether some candidate is an enemy and
passes the distance test. -/
theorem areEnemiesInRangeLoop_eq (w : World) (factionInfo : List FactionInfo)
    (me : SpaceObject) (self : ObjId) (range : ℚ) (row : FactionInfo)
    (hrow : factionInfo[me.faction_id]? = some row) (l : List ObjId)
    (hin : ∀ c ∈ l, ∀ obj, asSpaceObject w c = some obj →
      obj.faction_id < row.states.length) :
    areEnemiesInRangeLoop w factionInfo me self range l
      = some (l.any (fun c => inCircle w self range c && isEnemyOf w factionInfo me c)) := by
  induction l with
  | nil => simp [areEnemiesInRangeLoop]
  | cons c rest ih =>
    have ih1 := ih (fun c1 hc1 => hin c1 (List.mem_cons_of_mem c hc1))
    unfold areEnemiesInRangeLoop
    rw [ih1]
    cases hso : asSpaceObject w c with
    | none => simp [List.any_cons, inCircle, isEnemyOf, hso]
    | some obj =>
      have hlt := hin c (List.mem_cons_self c rest) obj hso
      have hst : row.states[obj.faction_id]? = some row.states[obj.faction_id] :=
        List.getElem?_eq_getElem hlt
      have hE : isEnemy factionInfo me obj
          = some (decide (row.states[obj.faction_id] = .FVF_Enemy)) := by
        simp [isEnemy, factionState_inside factionInfo _ _ row _ hrow hst]
      by_cases he : row.states[obj.faction_id] = .FVF_Enemy
      · by_cases hd : vecLess (getPosition w self - getPosition w c)
            (range + obj.object_radius) = true
        · simp [List.any_cons, inCircle, isEnemyOf, hso, hE, he, hd, SpaceObject.getRadius]
        · simp [List.any_cons, inCircle, isEnemyOf, hso, hE, he, hd, SpaceObject.getRadius]
      · simp [List.any_cons, inCircle, isEnemyOf, hso, hE, he]

/-- A list filtered twice is not empty exactly when some member passes both
tests. -/
theorem not_isEmpty_filter_filter (l : List ObjId) (p q : ObjId → Bool) :
    (!((l.filter p).filter q).isEmpty) = l.any (fun c => p c && q c) := by
  induction l with
  | nil => rfl
  | cons c rest ih =>
    by_cases hp : p c = true
    · by_cases hq : q c = true
      · simp [List.filter_cons, hp, hq]
      · simp [List.filter_cons, hp, hq, ← ih]
    · simp [List.filter_cons, hp, ← ih]

/-- C11: on one result of the spatial index, and with the faction ids of the
querying entity and of the candidates inside the relation table,
`areEnemiesInRange(range)` returns what the formulation by the full list
returns, and it returns true exactly when `getObjectsInRange(range)` contains
an object for which `isEnemy` holds. -/
theorem areEnemiesInRange_eq_bySet (w : World) (factionInfo : List FactionInfo)
    (queryArea : Vector2f → Vector2f → List ObjId) (self : ObjId) (range : ℚ)
    (me : SpaceObject) (row : FactionInfo)
    (hme : asSpaceObject w self = some me)
    (hrow : factionInfo[me.faction_id]? = some row)
    (hin : ∀ c ∈ queryArea (getPosition w self - (range, range))
        (getPosition w self + (range, range)),
      ∀ obj, asSpaceObject w c = some obj → obj.faction_id < row.states.length) :
    areEnemiesInRange w factionInfo queryArea self range
        = some (enemiesInRangeBySet w factionInfo queryArea me self range)
      ∧ (areEnemiesInRange w factionInfo queryArea self range = some true ↔
          ∃ c ∈ getObjectsInRange w queryArea self range,
            ∃ obj, asSpaceObject w c = some obj ∧ isEnemy factionInfo me obj = some true) := by
  have hset : getObjectsInRange w queryArea self range
      = (queryArea (getPosition w self - (range, range))
          (getPosition w self + (range, range))).filter (inCircle w self range) := by
    unfold getObjectsInRange
    rw [foldl_getObjectsInRangeStep, List.nil_append]
  have hloop : areEnemiesInRange w factionInfo queryArea self range
      = some (enemiesInRangeBySet w factionInfo queryArea me self range) := by
    unfold areEnemiesInRange enemiesInRangeBySet
    simp only [hme]
    rw [areEnemiesInRangeLoop_eq w factionInfo me self range row hrow _ hin, hset,
      not_isEmpty_filter_filter]
  refine ⟨hloop, ?_⟩
  rw [hloop]
  unfold enemiesInRangeBySet
  simp only [Option.some.injEq, Bool.not_eq_true', List.isEmpty_eq_false_iff_exists_mem,
    List.mem_filter]
  constructor
  · rintro ⟨c, hc, he⟩
    unfold isEnemyOf at he
    cases hso : asSpaceObject w c with
    | none => simp [hso] at he
    | some obj => exact ⟨c, hc, obj, hso, by simpa [hso] using he⟩
  · rintro ⟨c, hc, obj, hso, he⟩
    exact ⟨c, hc, by simp [isEnemyOf, hso, he]⟩

/-- C11, an instance: the querying object `0` of faction 0, with range 10, has
the enemy `2` in range (and the enemy `1` out of range): the short-circuiting
search and the formulation by the full list both give true. -/
theorem areEnemiesInRange_eq_bySet_witness :
    asSpaceObject enemyWorld 0 = some factionZero
      ∧ lopsidedTable[factionZero.faction_id]? = some ⟨[.FVF_Friendly, .FVF_Enemy]⟩
      ∧ areEnemiesInRange enemyWorld lopsidedTable allThree 0 10
          = some (enemiesInRangeBySet enemyWorld lopsidedTable allThree factionZero 0 10)
      ∧ areEnemiesInRange enemyWorld lopsidedTable allThree 0 10 = some true := by
  have hin : ∀ c ∈ allThree (getPosition enemyWorld 0 - (10, 10))
      (getPosition enemyWorld 0 + (10, 10)),
      ∀ obj, asSpaceObject enemyWorld c = some obj →
        obj.faction_id < (⟨[.FVF_Friendly, .FVF_Enemy]⟩ : FactionInfo).states.length := by
    intro c hc obj hso
    simp only [allThree, List.mem_cons, List.mem_singleton, List.not_mem_nil, or_false] at hc
    rcases hc with rfl | rfl | rfl <;>
      · simp only [asSpaceObject, enemyWorld] at hso
        cases hso
        decide
  have h := areEnemiesInRange_eq_bySet enemyWorld lopsidedTable allThree 0 10 factionZero
    ⟨[.FVF_Friendly, .FVF_Enemy]⟩ rfl rfl hin
  refine ⟨rfl, rfl, h.1, ?_⟩
  rw [h.2]
  refine ⟨2, ?_, ⟨1, 1, "", none⟩, rfl, by decide⟩
  unfold getObjectsInRange
  rw [foldl_getObjectsInRangeStep, List.nil_append, List.mem_filter]
  refine ⟨by simp [allThree], ?_⟩
  simp only [inCircle, asSpaceObject, enemyWorld, getPosition, vecLess]
  norm_num

/-! ## Damage-kind parsing: theorems -/

/-- C16: the conversion of a string token depends on the token only through
its lower-case form, and gives Energy for "energy", Kinetic for "kinetic" and
EMP for "emp"; for every other string token and for an argument that is no
string it returns (no error is raised) with the `DamageInfo` as it was handed
in, which is of the kind Unspecified for the default-constructed one. -/
theorem convertDamageInfoParam_spec (s : String) (idx : Int) (di : DamageInfo) :
    (∀ s2, lower s2 = lower s →
        convertDamageInfoParam (some s2) idx di = convertDamageInfoParam (some s) idx di)
      ∧ (lower s = "energy" → (convertDamageInfoParam (some s) idx di).2.type = .DT_Energy)
      ∧ (lower s = "kinetic" → (convertDamageInfoParam (some s) idx di).2.type = .DT_Kinetic)
      ∧ (lower s = "emp" → (convertDamageInfoParam (some s) idx di).2.type = .DT_EMP)
      ∧ (lower s ≠ "energy" → lower s ≠ "kinetic" → lower s ≠ "emp" →
          (convertDamageInfoParam (some s) idx di).2 = di
            ∧ (convertDamageInfoParam (some s) idx defaultDamageInfo).2.type = .DT_Unspecified)
      ∧ convertDamageInfoParam none idx di = (idx, di)
      ∧ (convertDamageInfoParam none idx defaultDamageInfo).2.type = .DT_Unspecified := by
  refine ⟨?_, ?_, ?_, ?_, ?_, rfl, rfl⟩
  · intro s2 h
    simp only [convertDamageInfoParam, h]
  · intro h
    simp [convertDamageInfoParam, h]
  · intro h
    simp [convertDamageInfoParam, h]
  · intro h
    simp [convertDamageInfoParam, h]
  · intro h1 h2 h3
    constructor
    · simp [convertDamageInfoParam, h1, h2, h3]
    · simp [convertDamageInfoParam, h1, h2, h3, defaultDamageInfo]

/-- C16, instances: "EnErGy", "KINETIC" and "Emp" give Energy, Kinetic and
EMP, and the token "plasma" leaves the default `DamageInfo` Unspecified. -/
theorem convertDamageInfoParam_spec_witness :
    lower "EnErGy" = "energy"
      ∧ (convertDamageInfoParam (some "EnErGy") 2 defaultDamageInfo).2.type = .DT_Energy
      ∧ (convertDamageInfoParam (some "KINETIC") 2 defaultDamageInfo).2.type = .DT_Kinetic
      ∧ (convertDamageInfoParam (some "Emp") 2 defaultDamageInfo).2.type = .DT_EMP
      ∧ (convertDamageInfoParam (some "plasma") 2 defaultDamageInfo).2.type = .DT_Unspecified :=
  ⟨by decide,
    (convertDamageInfoParam_spec "EnErGy" 2 defaultDamageInfo).2.1 (by decide),
    (convertDamageInfoParam_spec "KINETIC" 2 defaultDamageInfo).2.2.1 (by decide),
    (convertDamageInfoParam_spec "Emp" 2 defaultDamageInfo).2.2.2.1 (by decide),
    ((convertDamageInfoParam_spec "plasma" 2 defaultDamageInfo).2.2.2.2.1
      (by decide) (by decide) (by decide)).2⟩

/-! ## Binary32 arithmetic: rounding -/

theorem roundEven_intCast (n : Int) : roundEven (n : ℚ) = n := by
  simp [roundEven]

theorem floor_le_roundEven (x : ℚ) : ⌊x⌋ ≤ roundEven x := by
  unfold roundEven
  split
  · exact le_refl _
  · split
    · omega
    · split
      · exact le_refl _
      · omega

theorem roundEven_le_int (x : ℚ) (n : Int) (h : x ≤ n) : roundEven x ≤ n := by
  have hfl : ⌊x⌋ ≤ n := by
    have := (Int.floor_le x).trans h
    exact_mod_cast this
  have hstep : (1 : ℚ) / 2 ≤ x - ⌊x⌋ → ⌊x⌋ + 1 ≤ n := by
    intro hhalf
    have hlt : (⌊x⌋ : ℚ) < n := by linarith
    have : ⌊x⌋ < n := by exact_mod_cast hlt
    omega
  unfold roundEven
  split
  · exact hfl
  · next h1 =>
    have hhalf : (1 : ℚ) / 2 ≤ x - ⌊x⌋ := not_lt.mp h1
    split
    · exact hstep hhalf
    · split
      · exact hfl
      · exact hstep hhalf

theorem int_le_roundEven (x : ℚ) (n : Int) (h : (n : ℚ) ≤ x) : n ≤ roundEven x :=
  (Int.le_floor.mpr h).trans (floor_le_roundEven x)

/-- The value that `F32.round` yields when it does not overflow. -/
theorem F32.round_cases (q : ℚ) :
    (F32.round q = .pinf ∧ 2 ^ 128 ≤ (roundEven (q / 2 ^ F32.ulpExp q) : ℚ) * 2 ^ F32.ulpExp q)
      ∨ (F32.round q = .ninf
        ∧ (roundEven (q / 2 ^ F32.ulpExp q) : ℚ) * 2 ^ F32.ulpExp q ≤ -2 ^ 128)
      ∨ F32.round q = .fin ((roundEven (q / 2 ^ F32.ulpExp q) : ℚ) * 2 ^ F32.ulpExp q) := by
  unfold F32.round
  split
  · next h => exact Or.inl ⟨rfl, h⟩
  · split
    · next h => exact Or.inr (Or.inl ⟨rfl, h⟩)
    · exact Or.inr (Or.inr rfl)

theorem two_zpow_pos (e : Int) : (0 : ℚ) < 2 ^ e := zpow_pos (by norm_num) e

/-- A representable value is rounded to itself. -/
theorem F32.round_of_representable (q : ℚ) (h : F32.representable q) :
    F32.round q = .fin q := by
  obtain ⟨hden, hlt⟩ := h
  have hint : ((q / 2 ^ F32.ulpExp q).num : ℚ) = q / 2 ^ F32.ulpExp q :=
    Rat.coe_int_num_of_den_eq_one hden
  have hre : roundEven (q / 2 ^ F32.ulpExp q) = (q / 2 ^ F32.ulpExp q).num := by
    rw [← hint, roundEven_intCast]
    simp
  have hv : (roundEven (q / 2 ^ F32.ulpExp q) : ℚ) * 2 ^ F32.ulpExp q = q := by
    rw [hre, hint]
    exact div_mul_cancel₀ q (ne_of_gt (two_zpow_pos _))
  have habs := abs_lt.mp hlt
  unfold F32.round
  rw [hv]
  rw [if_neg (not_le.mpr habs.2), if_neg (not_le.mpr habs.1)]

/-- An exact result that is at least zero is rounded to a value that is at
least zero, or to plus infinity. -/
theorem F32.round_nonneg (q : ℚ) (h : 0 ≤ q) : F32.nonneg (F32.round q) := by
  have hv : (0 : ℚ) ≤ (roundEven (q / 2 ^ F32.ulpExp q) : ℚ) * 2 ^ F32.ulpExp q := by
    have h1 : (0 : ℚ) ≤ q / 2 ^ F32.ulpExp q := div_nonneg h (le_of_lt (two_zpow_pos _))
    have h2 : (0 : Int) ≤ roundEven (q / 2 ^ F32.ulpExp q) :=
      int_le_roundEven _ 0 (by simpa using h1)
    exact mul_nonneg (by exact_mod_cast h2) (le_of_lt (two_zpow_pos _))
  rcases F32.round_cases q with ⟨hr, -⟩ | ⟨-, hle⟩ | hr
  · rw [hr]
    trivial
  · exfalso
    have : (0 : ℚ) < 2 ^ 128 := by norm_num
    linarith
  · rw [hr]
    exact hv

/-- An exact result that is at most zero is rounded to a value that is at most
zero, or to minus infinity. -/
theorem F32.round_nonpos (q : ℚ) (h : q ≤ 0) :
    F32.round q = .ninf ∨ ∃ v, v ≤ 0 ∧ F32.round q = .fin v := by
  have hv : (roundEven (q / 2 ^ F32.ulpExp q) : ℚ) * 2 ^ F32.ulpExp q ≤ 0 := by
    have h1 : q / 2 ^ F32.ulpExp q ≤ 0 := div_nonpos_of_nonpos_of_nonneg h (le_of_lt (two_zpow_pos _))
    have h2 : roundEven (q / 2 ^ F32.ulpExp q) ≤ 0 :=
      roundEven_le_int _ 0 (by simpa using h1)
    exact mul_nonpos_of_nonpos_of_nonneg (by exact_mod_cast h2) (le_of_lt (two_zpow_pos _))
  rcases F32.round_cases q with ⟨-, hge⟩ | ⟨hr, -⟩ | hr
  · exfalso
    have : (0 : ℚ) < 2 ^ 128 := by norm_num
    linarith
  · exact Or.inl hr
  · exact Or.inr ⟨_, hv, hr⟩

theorem log2Fuel_spec (fuel n : Nat) (h1 : 1 ≤ n) (hf : n ≤ fuel) :
    2 ^ log2Fuel fuel n ≤ n ∧ n < 2 ^ (log2Fuel fuel n + 1) := by
  induction fuel generalizing n with
  | zero => omega
  | succ fuel ih =>
    unfold log2Fuel
    by_cases h2 : n < 2
    · have hn : n = 1 := by omega
      simp [h2, hn]
    · simp only [h2, if_false]
      obtain ⟨ih1, ih2⟩ := ih (n / 2) (by omega) (by omega)
      have e1 : 2 ^ (log2Fuel fuel (n / 2) + 1) = 2 * 2 ^ log2Fuel fuel (n / 2) := by
        rw [pow_succ, mul_comm]
      have e2 : 2 ^ (log2Fuel fuel (n / 2) + 1 + 1)
          = 2 * 2 ^ (log2Fuel fuel (n / 2) + 1) := by
        rw [pow_succ, mul_comm]
      constructor
      · rw [e1]
        omega
      · rw [e2]
        omega

theorem log2Nat_spec (n : Nat) (h1 : 1 ≤ n) :
    2 ^ log2Nat n ≤ n ∧ n < 2 ^ (log2Nat n + 1) :=
  log2Fuel_spec n n h1 (le_refl n)

/-- The function `ilog2` is the integer part of the binary logarithm. -/
theorem ilog2_spec (q : ℚ) (hq : q ≠ 0) :
    (2 : ℚ) ^ ilog2 q ≤ |q| ∧ |q| < (2 : ℚ) ^ (ilog2 q + 1) := by
  have hnum : 1 ≤ q.num.natAbs := by
    have : q.num ≠ 0 := Rat.num_ne_zero.mpr hq
    omega
  have hden : 1 ≤ q.den := q.den_pos
  obtain ⟨a1, a2⟩ := log2Nat_spec q.num.natAbs hnum
  obtain ⟨b1, b2⟩ := log2Nat_spec q.den hden
  have habs : |q| = (q.num.natAbs : ℚ) / (q.den : ℚ) := by
    conv_lhs => rw [← Rat.num_div_den q]
    rw [abs_div, Nat.abs_cast, Nat.cast_natAbs, Int.cast_abs]
  have hdpos : (0 : ℚ) < (q.den : ℚ) := by exact_mod_cast q.den_pos
  have A1 : (2 : ℚ) ^ (log2Nat q.num.natAbs : Int) ≤ (q.num.natAbs : ℚ) := by
    rw [zpow_natCast]
    exact_mod_cast a1
  have A2 : (q.num.natAbs : ℚ) < (2 : ℚ) ^ ((log2Nat q.num.natAbs : Int) + 1) := by
    have : ((log2Nat q.num.natAbs : Int) + 1) = ((log2Nat q.num.natAbs + 1 : Nat) : Int) := by
      push_cast
      rfl
    rw [this, zpow_natCast]
    exact_mod_cast a2
  have B1 : (2 : ℚ) ^ (log2Nat q.den : Int) ≤ (q.den : ℚ) := by
    rw [zpow_natCast]
    exact_mod_cast b1
  have B2 : (q.den : ℚ) < (2 : ℚ) ^ ((log2Nat q.den : Int) + 1) := by
    have : ((log2Nat q.den : Int) + 1) = ((log2Nat q.den + 1 : Nat) : Int) := by
      push_cast
      rfl
    rw [this, zpow_natCast]
    exact_mod_cast b2
  have h2 : (2 : ℚ) ≠ 0 := by norm_num
  unfold ilog2
  split
  · next hle =>
    refine ⟨hle, ?_⟩
    rw [habs, div_lt_iff₀ hdpos]
    have e : (2 : ℚ) ^ ((log2Nat q.num.natAbs : Int) - (log2Nat q.den : Int) + 1)
        = (2 : ℚ) ^ ((log2Nat q.num.natAbs : Int) + 1) / (2 : ℚ) ^ (log2Nat q.den : Int) := by
      rw [← zpow_sub₀ h2]
      congr 1
      ring
    rw [e, div_mul_eq_mul_div, lt_div_iff₀ (two_zpow_pos _)]
    calc (q.num.natAbs : ℚ) * (2 : ℚ) ^ (log2Nat q.den : Int)
        ≤ (q.num.natAbs : ℚ) * (q.den : ℚ) :=
          mul_le_mul_of_nonneg_left B1 (by positivity)
      _ < (2 : ℚ) ^ ((log2Nat q.num.natAbs : Int) + 1) * (q.den : ℚ) :=
          mul_lt_mul_of_pos_right A2 hdpos
  · next hnle =>
    have hlt : |q| < (2 : ℚ) ^ ((log2Nat q.num.natAbs : Int) - (log2Nat q.den : Int)) :=
      not_le.mp hnle
    refine ⟨?_, by simpa using hlt⟩
    rw [habs, le_div_iff₀ hdpos]
    have e : (2 : ℚ) ^ ((log2Nat q.num.natAbs : Int) - (log2Nat q.den : Int) - 1)
        = (2 : ℚ) ^ (log2Nat q.num.natAbs : Int) / (2 : ℚ) ^ ((log2Nat q.den : Int) + 1) := by
      rw [← zpow_sub₀ h2]
      congr 1
      ring
    rw [e, div_mul_eq_mul_div, div_le_iff₀ (two_zpow_pos _)]
    calc (2 : ℚ) ^ (log2Nat q.num.natAbs : Int) * (q.den : ℚ)
        ≤ (q.num.natAbs : ℚ) * (q.den : ℚ) :=
          mul_le_mul_of_nonneg_right A1 (le_of_lt hdpos)
      _ ≤ (q.num.natAbs : ℚ) * (2 : ℚ) ^ ((log2Nat q.den : Int) + 1) :=
          mul_le_mul_of_nonneg_left (le_of_lt B2) (by positivity)

theorem F32.ulpExp_ge (q : ℚ) : -149 ≤ F32.ulpExp q := le_max_left _ _

theorem F32.ulpExp_ge_ilog2 (q : ℚ) : ilog2 q - 23 ≤ F32.ulpExp q := le_max_right _ _

theorem F32.ulpExp_eq_of_gt (q : ℚ) (h : -149 < F32.ulpExp q) :
    F32.ulpExp q = ilog2 q - 23 := by
  unfold F32.ulpExp at h ⊢
  rcases max_cases (-149 : Int) (ilog2 q - 23) with ⟨h1, -⟩ | ⟨h1, -⟩
  · rw [h1] at h
    omega
  · exact h1

/-- The multiple of the unit in the last place that `F32.round` picks for an
exact result below a representable value is not above that value. -/
theorem F32.rounded_le_of_le (x M : ℚ) (hM : F32.representable M) (h : x ≤ M) :
    (roundEven (x / 2 ^ F32.ulpExp x) : ℚ) * 2 ^ F32.ulpExp x ≤ M := by
  obtain ⟨hden, hMlt⟩ := hM
  have h2 : (2 : ℚ) ≠ 0 := by norm_num
  have hk : ((M / 2 ^ F32.ulpExp M).num : ℚ) = M / 2 ^ F32.ulpExp M :=
    Rat.coe_int_num_of_den_eq_one hden
  by_cases hex : F32.ulpExp x ≤ F32.ulpExp M
  · -- the grid of `x` is at least as fine as the grid of `M`
    obtain ⟨t, ht⟩ := Int.eq_ofNat_of_zero_le (sub_nonneg.mpr hex)
    have hpow : (2 : ℚ) ^ F32.ulpExp M = 2 ^ F32.ulpExp x * ((2 ^ t : Int) : ℚ) := by
      have : F32.ulpExp M = F32.ulpExp x + (t : Int) := by omega
      rw [this, zpow_add₀ h2, zpow_natCast]
      push_cast
      rfl
    have hMn : (((M / 2 ^ F32.ulpExp M).num * 2 ^ t : Int) : ℚ) * 2 ^ F32.ulpExp x = M := by
      push_cast
      rw [hk]
      have : M / 2 ^ F32.ulpExp M * 2 ^ t * 2 ^ F32.ulpExp x
          = M / 2 ^ F32.ulpExp M * (2 ^ F32.ulpExp x * ((2 ^ t : Int) : ℚ)) := by
        push_cast
        ring
      rw [this, ← hpow]
      exact div_mul_cancel₀ M (ne_of_gt (two_zpow_pos _))
    have hxle : x / 2 ^ F32.ulpExp x ≤ (((M / 2 ^ F32.ulpExp M).num * 2 ^ t : Int) : ℚ) := by
      rw [div_le_iff₀ (two_zpow_pos _), hMn]
      exact h
    have hr := roundEven_le_int _ _ hxle
    calc (roundEven (x / 2 ^ F32.ulpExp x) : ℚ) * 2 ^ F32.ulpExp x
        ≤ (((M / 2 ^ F32.ulpExp M).num * 2 ^ t : Int) : ℚ) * 2 ^ F32.ulpExp x :=
          mul_le_mul_of_nonneg_right (by exact_mod_cast hr) (le_of_lt (two_zpow_pos _))
      _ = M := hMn
  · -- the grid of `x` is coarser: `x` is below `-|M|`
    have hgt : F32.ulpExp M < F32.ulpExp x := not_le.mp hex
    by_cases hx0 : x = 0
    · subst hx0
      simpa [roundEven] using h
    have hexq : F32.ulpExp x = ilog2 x - 23 :=
      F32.ulpExp_eq_of_gt x (lt_of_le_of_lt (F32.ulpExp_ge M) hgt)
    obtain ⟨hL1, -⟩ := ilog2_spec x hx0
    have hMabs : |M| < (2 : ℚ) ^ ilog2 x := by
      by_cases hM0 : M = 0
      · rw [hM0, abs_zero]
        exact two_zpow_pos _
      · obtain ⟨-, hM2⟩ := ilog2_spec M hM0
        have hle : ilog2 M + 1 ≤ ilog2 x := by
          have := F32.ulpExp_ge_ilog2 M
          omega
        exact lt_of_lt_of_le hM2 (zpow_le_zpow_right₀ (by norm_num) hle)
    have hxneg : x < 0 := by
      by_contra hnn
      have hx : 0 ≤ x := not_lt.mp hnn
      have : |x| ≤ |M| := by
        rw [abs_of_nonneg hx, abs_of_nonneg (hx.trans h)]
        exact h
      linarith
    have hxle : x ≤ -(2 : ℚ) ^ ilog2 x := by
      rw [abs_of_neg hxneg] at hL1
      linarith
    have hsplit : (2 : ℚ) ^ ilog2 x = ((2 ^ 23 : Int) : ℚ) * 2 ^ F32.ulpExp x := by
      have : ilog2 x = (23 : Int) + F32.ulpExp x := by omega
      rw [this, zpow_add₀ h2]
      norm_num
    have hdiv : x / 2 ^ F32.ulpExp x ≤ ((-(2 ^ 23) : Int) : ℚ) := by
      rw [div_le_iff₀ (two_zpow_pos _)]
      have : ((-(2 ^ 23) : Int) : ℚ) * 2 ^ F32.ulpExp x = -(2 : ℚ) ^ ilog2 x := by
        rw [hsplit]
        push_cast
        ring
      rw [this]
      exact hxle
    have hr := roundEven_le_int _ _ hdiv
    have hv : (roundEven (x / 2 ^ F32.ulpExp x) : ℚ) * 2 ^ F32.ulpExp x
        ≤ -(2 : ℚ) ^ ilog2 x := by
      calc (roundEven (x / 2 ^ F32.ulpExp x) : ℚ) * 2 ^ F32.ulpExp x
          ≤ ((-(2 ^ 23) : Int) : ℚ) * 2 ^ F32.ulpExp x :=
            mul_le_mul_of_nonneg_right (by exact_mod_cast hr) (le_of_lt (two_zpow_pos _))
        _ = -(2 : ℚ) ^ ilog2 x := by
            rw [hsplit]
            push_cast
            ring
    have := (abs_lt.mp hMabs).1
    linarith

/-- An exact result that is not above a representable value is rounded to a
value that is not above it, or to minus infinity. -/
theorem F32.round_le_of_le (x M : ℚ) (hM : F32.representable M) (h : x ≤ M) :
    F32.round x = .ninf ∨ ∃ v, v ≤ M ∧ F32.round x = .fin v := by
  have hv := F32.rounded_le_of_le x M hM h
  have hMlt : M < 2 ^ 128 := (abs_lt.mp hM.2).2
  rcases F32.round_cases x with ⟨-, hge⟩ | ⟨hr, -⟩ | hr
  · exfalso
    linarith
  · exact Or.inl hr
  · exact Or.inr ⟨_, hv, hr⟩

/-! ## The reputation ledger in binary32: theorems -/

theorem lt_length_of_getElem?_float {l : List F32} {i : Nat} {b : F32} (h : l[i]? = some b) :
    i < l.length := by
  by_contra hn
  rw [List.getElem?_eq_none (Nat.le_of_not_lt hn)] at h
  cases h

/-- C4, as the code has it: for a faction id inside the ledger, a take returns
false and leaves the ledger as it was when the balance compares less than the
amount, and otherwise returns true and stores the `float` difference of
balance and amount; for finite operands the comparison is the one of the
values and the difference is the exact one rounded to the nearest `float`,
the exact one itself when it is representable; a get that follows returns the
stored balance, truncated. -/
theorem takeReputationPoints_float (g : Binary32.GameGlobalInfo) (self : SpaceObject)
    (amount balance : F32) (h : g.reputation_points[self.faction_id]? = some balance) :
    (F32.lt balance amount = true →
        Binary32.takeReputationPoints g self amount = some (false, g)
          ∧ Binary32.getReputationPoints g self = F32.toInt balance)
      ∧ (F32.lt balance amount = false →
        Binary32.takeReputationPoints g self amount
            = some (true, ⟨g.reputation_points.set self.faction_id (F32.sub balance amount)⟩)
          ∧ (g.reputation_points.set self.faction_id (F32.sub balance amount))[self.faction_id]?
            = some (F32.sub balance amount)
          ∧ Binary32.getReputationPoints
              ⟨g.reputation_points.set self.faction_id (F32.sub balance amount)⟩ self
            = F32.toInt (F32.sub balance amount))
      ∧ (∀ x y : ℚ, balance = .fin x → amount = .fin y →
          (F32.lt balance amount = true ↔ x < y)
            ∧ F32.sub balance amount = F32.round (x - y)
            ∧ (F32.representable (x - y) → F32.sub balance amount = .fin (x - y))) := by
  have hlt : self.faction_id < g.reputation_points.length := lt_length_of_getElem?_float h
  have hnot : ¬ g.reputation_points.length < self.faction_id := by omega
  refine ⟨?_, ?_, ?_⟩
  · intro hc
    constructor
    · simp [Binary32.takeReputationPoints, hnot, h, hc]
    · simp [Binary32.getReputationPoints, hnot, h]
  · intro hc
    have hset : (g.reputation_points.set self.faction_id (F32.sub balance amount))[self.faction_id]?
        = some (F32.sub balance amount) := by
      simp [List.getElem?_set, hlt]
    refine ⟨?_, hset, ?_⟩
    · simp [Binary32.takeReputationPoints, hnot, h, hc]
    · simp [Binary32.getReputationPoints, hset]
      omega
  · intro x y hb ha
    subst hb ha
    have hsub : F32.sub (.fin x) (.fin y) = F32.round (x - y) := by
      simp [F32.sub, F32.neg, F32.add, sub_eq_add_neg]
    refine ⟨by simp [F32.lt], hsub, ?_⟩
    intro hrep
    rw [hsub, F32.round_of_representable _ hrep]

/-- C4, the worked example: with balance 100 a take of 150 returns false and
the balance stays 100, then a take of 50 returns true and the balance is 50. -/
theorem takeReputationPoints_float_witness :
    (⟨[.fin 100]⟩ : Binary32.GameGlobalInfo).reputation_points[factionZero.faction_id]?
        = some (.fin 100)
      ∧ Binary32.takeReputationPoints ⟨[.fin 100]⟩ factionZero (.fin 150)
        = some (false, ⟨[.fin 100]⟩)
      ∧ Binary32.getReputationPoints ⟨[.fin 100]⟩ factionZero = some 100
      ∧ Binary32.takeReputationPoints ⟨[.fin 100]⟩ factionZero (.fin 50)
        = some (true, ⟨[.fin 50]⟩)
      ∧ Binary32.getReputationPoints ⟨[.fin 50]⟩ factionZero = some 50 := by
  have h := (takeReputationPoints_float ⟨[.fin 100]⟩ factionZero (.fin 150) (.fin 100) rfl).1
    (by decide!)
  have k := (takeReputationPoints_float ⟨[.fin 100]⟩ factionZero (.fin 50) (.fin 100) rfl).2.1
    (by decide!)
  refine ⟨rfl, h.1, by decide!, ?_, by decide!⟩
  rw [k.1]
  decide!

/-- C4, counterexample to "lowers the balance by exactly amount" and to
"otherwise returns false": with balance `2 ^ 25` a take of 1 returns true and
the stored balance is still `2 ^ 25`, the `float` nearest to `2 ^ 25 - 1`; and
a take of NaN from balance 100 returns true and stores NaN. -/
theorem takeReputationPoints_float_rounds :
    F32.representable (2 ^ 25) ∧ F32.representable 1
      ∧ F32.le (.fin 1) (.fin (2 ^ 25)) = true
      ∧ Binary32.takeReputationPoints ⟨[.fin (2 ^ 25)]⟩ factionZero (.fin 1)
        = some (true, ⟨[.fin (2 ^ 25)]⟩)
      ∧ (2 ^ 25 : ℚ) ≠ 2 ^ 25 - 1
      ∧ F32.le .nan (.fin 100) = false
      ∧ Binary32.takeReputationPoints ⟨[.fin 100]⟩ factionZero .nan
        = some (true, ⟨[.nan]⟩) := by
  refine ⟨?_, ?_, ?_, ?_, ?_, ?_, ?_⟩ <;> decide!

theorem addReputationPoints_float_inside (g : Binary32.GameGlobalInfo) (self : SpaceObject)
    (amount balance : F32) (h : g.reputation_points[self.faction_id]? = some balance) :
    Binary32.addReputationPoints g self amount
      = some ⟨g.reputation_points.set self.faction_id
          (F32.clampZero (F32.add balance amount))⟩ := by
  have hlt : self.faction_id < g.reputation_points.length := lt_length_of_getElem?_float h
  have hnot : ¬ g.reputation_points.length < self.faction_id := by omega
  have hset : (g.reputation_points.set self.faction_id (F32.add balance amount))[self.faction_id]?
      = some (F32.add balance amount) := by
    simp [List.getElem?_set, hlt]
  by_cases hneg : F32.lt (F32.add balance amount) (.fin 0) = true
  · simp [Binary32.addReputationPoints, hnot, h, hset, hneg, F32.clampZero]
  · simp [Binary32.addReputationPoints, hnot, h, hset, hneg, F32.clampZero]

theorem F32.clampZero_not_lt (s : F32) : F32.lt (F32.clampZero s) (.fin 0) = false := by
  unfold F32.clampZero
  split
  · simp [F32.lt]
  · next h => simpa using h

theorem F32.clampZero_fin (v : ℚ) : F32.clampZero (.fin v) = .fin (max 0 v) := by
  unfold F32.clampZero
  by_cases h : v < 0
  · simp [F32.lt, h, max_eq_left (le_of_lt h)]
  · simp [F32.lt, h, max_eq_right (not_lt.mp h)]

/-- The clamp of a value that is not NaN is at least zero. -/
theorem F32.clampZero_nonneg (s : F32) (h : s ≠ .nan) : F32.nonneg (F32.clampZero s) := by
  cases s with
  | nan => exact absurd rfl h
  | pinf => simp [F32.clampZero, F32.lt, F32.nonneg]
  | ninf => simp [F32.clampZero, F32.lt, F32.nonneg]
  | fin v =>
    rw [F32.clampZero_fin]
    exact le_max_left _ _

theorem F32.round_ne_nan (q : ℚ) : F32.round q ≠ .nan := by
  rcases F32.round_cases q with ⟨h, -⟩ | ⟨h, -⟩ | h <;> rw [h] <;> simp

/-- C5, as the code has it: for a faction id inside the ledger an add stores
the `float` sum of balance and amount, made zero when it compares less than
zero, and a remove does the same with the `float` difference; the stored
balance never compares less than zero; for finite operands the sum is the
exact one rounded to the nearest `float`, so that the balance is
max(0, balance + amount), or max(0, balance - amount), when that exact result
is representable; an add of -1000 to a balance of at most 1000 leaves 0. -/
theorem addReputationPoints_float (g : Binary32.GameGlobalInfo) (self : SpaceObject)
    (amount balance : F32) (h : g.reputation_points[self.faction_id]? = some balance) :
    Binary32.addReputationPoints g self amount
        = some ⟨g.reputation_points.set self.faction_id
            (F32.clampZero (F32.add balance amount))⟩
      ∧ Binary32.removeReputationPoints g self amount
        = some ⟨g.reputation_points.set self.faction_id
            (F32.clampZero (F32.sub balance amount))⟩
      ∧ (∀ v : F32, (g.reputation_points.set self.faction_id v)[self.faction_id]? = some v)
      ∧ F32.lt (F32.clampZero (F32.add balance amount)) (.fin 0) = false
      ∧ F32.lt (F32.clampZero (F32.sub balance amount)) (.fin 0) = false
      ∧ (∀ x y : ℚ, balance = .fin x → amount = .fin y →
          F32.add balance amount = F32.round (x + y)
            ∧ (F32.representable (x + y) →
              F32.clampZero (F32.add balance amount) = .fin (max 0 (x + y)))
            ∧ (F32.representable (x - y) →
              F32.clampZero (F32.sub balance amount) = .fin (max 0 (x - y))))
      ∧ (F32.le balance (.fin 1000) = true →
          F32.clampZero (F32.add balance (.fin (-1000))) = .fin 0) := by
  have hlt : self.faction_id < g.reputation_points.length := lt_length_of_getElem?_float h
  refine ⟨addReputationPoints_float_inside g self amount balance h,
    addReputationPoints_float_inside g self (F32.neg amount) balance h, ?_,
    F32.clampZero_not_lt _, F32.clampZero_not_lt _, ?_, ?_⟩
  · intro v
    simp [List.getElem?_set, hlt]
  · intro x y hb ha
    subst hb ha
    have hadd : F32.add (.fin x) (.fin y) = F32.round (x + y) := by simp [F32.add]
    have hsub : F32.sub (.fin x) (.fin y) = F32.round (x - y) := by
      simp [F32.sub, F32.neg, F32.add, sub_eq_add_neg]
    refine ⟨hadd, ?_, ?_⟩
    · intro hrep
      rw [hadd, F32.round_of_representable _ hrep, F32.clampZero_fin]
    · intro hrep
      rw [hsub, F32.round_of_representable _ hrep, F32.clampZero_fin]
  · intro hle
    cases balance with
    | nan => simp [F32.le] at hle
    | pinf => simp [F32.le] at hle
    | ninf => simp [F32.add, F32.clampZero, F32.lt]
    | fin x =>
      have hx : x ≤ 1000 := by simpa [F32.le] using hle
      have hadd : F32.add (.fin x) (.fin (-1000)) = F32.round (x + -1000) := by simp [F32.add]
      rw [hadd]
      rcases F32.round_nonpos (x + -1000) (by linarith) with hr | ⟨v, hv, hr⟩
      · rw [hr]
        simp [F32.clampZero, F32.lt]
      · rw [hr, F32.clampZero_fin, max_eq_left hv]

/-- C5, instances: balance 100 plus 20 is 120, balance 100 less 20 is 80, and
an add of -1000 to balance 100 leaves 0. -/
theorem addReputationPoints_float_witness :
    (⟨[.fin 100]⟩ : Binary32.GameGlobalInfo).reputation_points[factionZero.faction_id]?
        = some (.fin 100)
      ∧ Binary32.addReputationPoints ⟨[.fin 100]⟩ factionZero (.fin 20) = some ⟨[.fin 120]⟩
      ∧ Binary32.removeReputationPoints ⟨[.fin 100]⟩ factionZero (.fin 20) = some ⟨[.fin 80]⟩
      ∧ F32.le (.fin 100) (.fin 1000) = true
      ∧ Binary32.addReputationPoints ⟨[.fin 100]⟩ factionZero (.fin (-1000))
        = some ⟨[.fin 0]⟩ := by
  have h := addReputationPoints_float ⟨[.fin 100]⟩ factionZero (.fin 20) (.fin 100) rfl
  have k := addReputationPoints_float ⟨[.fin 100]⟩ factionZero (.fin (-1000)) (.fin 100) rfl
  refine ⟨rfl, ?_, ?_, by decide!, ?_⟩
  · rw [h.1]
    decide!
  · rw [h.2.1]
    decide!
  · rw [k.1, k.2.2.2.2.2.2 (by decide!)]
    decide!

/-- C5, counterexample to "the balance equals max(0, prior balance + amount)":
an add of 1 to the balance `2 ^ 25` leaves `2 ^ 25`, the `float` nearest to
`2 ^ 25 + 1`, and an add of NaN to the balance 100 leaves NaN, which the clamp
does not catch. -/
theorem addReputationPoints_float_rounds :
    F32.representable (2 ^ 25) ∧ F32.representable 1
      ∧ Binary32.addReputationPoints ⟨[.fin (2 ^ 25)]⟩ factionZero (.fin 1)
        = some ⟨[.fin (2 ^ 25)]⟩
      ∧ (2 ^ 25 : ℚ) ≠ max 0 (2 ^ 25 + 1)
      ∧ Binary32.addReputationPoints ⟨[.fin 100]⟩ factionZero .nan = some ⟨[.nan]⟩ := by
  refine ⟨?_, ?_, ?_, ?_, ?_⟩ <;> decide!

/-- A write of a balance that is at least zero keeps the ledger at least zero. -/
theorem ledgerNonneg_float_set (g : Binary32.GameGlobalInfo) (h0 : Binary32.LedgerNonneg g)
    (i : Nat) (v : F32) (hv : F32.nonneg v) :
    Binary32.LedgerNonneg ⟨g.reputation_points.set i v⟩ := by
  intro b hmem
  rcases List.mem_or_eq_of_mem_set hmem with hm | he
  · exact h0 b hm
  · rw [he]
    exact hv

/-- The sum of a balance that is at least zero and a finite amount is not NaN. -/
theorem F32.add_fin_ne_nan (b : F32) (a : ℚ) (hb : F32.nonneg b) :
    F32.add b (.fin a) ≠ .nan := by
  cases b with
  | nan => exact absurd hb (by simp [F32.nonneg])
  | pinf => simp [F32.add]
  | ninf => exact absurd hb (by simp [F32.nonneg])
  | fin x =>
    have : F32.add (.fin x) (.fin a) = F32.round (x + a) := by simp [F32.add]
    rw [this]
    exact F32.round_ne_nan _

/-- The difference of a balance that is at least zero and a finite amount that
it does not compare less than is at least zero. -/
theorem F32.sub_nonneg_of_not_lt (b : F32) (a : ℚ) (hb : F32.nonneg b)
    (hlt : F32.lt b (.fin a) = false) : F32.nonneg (F32.sub b (.fin a)) := by
  cases b with
  | nan => exact absurd hb (by simp [F32.nonneg])
  | pinf => simp [F32.sub, F32.neg, F32.add, F32.nonneg]
  | ninf => exact absurd hb (by simp [F32.nonneg])
  | fin x =>
    have hxa : a ≤ x := by simpa [F32.lt] using hlt
    have : F32.sub (.fin x) (.fin a) = F32.round (x - a) := by
      simp [F32.sub, F32.neg, F32.add, sub_eq_add_neg]
    rw [this]
    exact F32.round_nonneg _ (by linarith)

/-- Each ledger call with a finite amount, by an entity of a faction inside the
ledger, returns, keeps the size of the ledger, and keeps every balance at
zero or more. -/
theorem ledgerCall_float_run_nonneg (c : Binary32.LedgerCall) (g : Binary32.GameGlobalInfo)
    (hb : (Binary32.LedgerCall.caller c).faction_id < g.reputation_points.length)
    (hfin : F32.finite (Binary32.LedgerCall.amount c)) (h0 : Binary32.LedgerNonneg g) :
    ∃ g1, Binary32.LedgerCall.run g c = some g1
      ∧ g1.reputation_points.length = g.reputation_points.length
      ∧ Binary32.LedgerNonneg g1 := by
  have haddcase : ∀ (self : SpaceObject) (a : ℚ),
      self.faction_id < g.reputation_points.length →
      ∃ g1, Binary32.addReputationPoints g self (.fin a) = some g1
        ∧ g1.reputation_points.length = g.reputation_points.length
        ∧ Binary32.LedgerNonneg g1 := by
    intro self a hb1
    have hget : g.reputation_points[self.faction_id]?
        = some g.reputation_points[self.faction_id] := List.getElem?_eq_getElem hb1
    have hbal : F32.nonneg g.reputation_points[self.faction_id] :=
      h0 _ (List.getElem_mem hb1)
    exact ⟨_, addReputationPoints_float_inside g self (.fin a) _ hget, by simp,
      ledgerNonneg_float_set g h0 _ _
        (F32.clampZero_nonneg _ (F32.add_fin_ne_nan _ a hbal))⟩
  cases c with
  | take self amount =>
    cases amount with
    | nan => exact absurd hfin (by simp [Binary32.LedgerCall.amount, F32.finite])
    | pinf => exact absurd hfin (by simp [Binary32.LedgerCall.amount, F32.finite])
    | ninf => exact absurd hfin (by simp [Binary32.LedgerCall.amount, F32.finite])
    | fin a =>
      have hb1 : self.faction_id < g.reputation_points.length := hb
      have hnot : ¬ g.reputation_points.length < self.faction_id := by omega
      have hget : g.reputation_points[self.faction_id]?
          = some g.reputation_points[self.faction_id] := List.getElem?_eq_getElem hb1
      have hbal : F32.nonneg g.reputation_points[self.faction_id] :=
        h0 _ (List.getElem_mem hb1)
      by_cases hlt : F32.lt g.reputation_points[self.faction_id] (.fin a) = true
      · exact ⟨g, by simp [Binary32.LedgerCall.run, Binary32.takeReputationPoints, hnot, hget,
          hlt], rfl, h0⟩
      · refine ⟨⟨g.reputation_points.set self.faction_id
            (F32.sub g.reputation_points[self.faction_id] (.fin a))⟩, ?_, by simp, ?_⟩
        · simp [Binary32.LedgerCall.run, Binary32.takeReputationPoints, hnot, hget, hlt]
        · exact ledgerNonneg_float_set g h0 _ _
            (F32.sub_nonneg_of_not_lt _ a hbal (by simpa using hlt))
  | add self amount =>
    cases amount with
    | nan => exact absurd hfin (by simp [Binary32.LedgerCall.amount, F32.finite])
    | pinf => exact absurd hfin (by simp [Binary32.LedgerCall.amount, F32.finite])
    | ninf => exact absurd hfin (by simp [Binary32.LedgerCall.amount, F32.finite])
    | fin a => exact haddcase self a hb
  | remove self amount =>
    cases amount with
    | nan => exact absurd hfin (by simp [Binary32.LedgerCall.amount, F32.finite])
    | pinf => exact absurd hfin (by simp [Binary32.LedgerCall.amount, F32.finite])
    | ninf => exact absurd hfin (by simp [Binary32.LedgerCall.amount, F32.finite])
    | fin a => exact haddcase self (-a) hb

/-- C6, as the code has it: when every balance is at least zero, any finite
sequence of take, add and remove calls, by entities of factions inside the
ledger and with any finite amounts (negative ones too), runs to the end and
leaves every balance at least zero (a finite value that is, or plus
infinity). -/
theorem runLedgerCalls_float_nonneg (calls : List Binary32.LedgerCall)
    (g : Binary32.GameGlobalInfo)
    (hb : ∀ c ∈ calls,
      (Binary32.LedgerCall.caller c).faction_id < g.reputation_points.length)
    (hfin : ∀ c ∈ calls, F32.finite (Binary32.LedgerCall.amount c))
    (h0 : Binary32.LedgerNonneg g) :
    ∃ g1, Binary32.runLedgerCalls calls g = some g1
      ∧ g1.reputation_points.length = g.reputation_points.length
      ∧ Binary32.LedgerNonneg g1 := by
  induction calls generalizing g with
  | nil => exact ⟨g, rfl, rfl, h0⟩
  | cons c cs ih =>
    obtain ⟨g1, hrun, hlen, hnn⟩ :=
      ledgerCall_float_run_nonneg c g (hb c (List.mem_cons_self c cs))
        (hfin c (List.mem_cons_self c cs)) h0
    have hb1 : ∀ c1 ∈ cs,
        (Binary32.LedgerCall.caller c1).faction_id < g1.reputation_points.length := by
      intro c1 hc1
      rw [hlen]
      exact hb c1 (List.mem_cons_of_mem c hc1)
    obtain ⟨g2, hrun2, hlen2, hnn2⟩ :=
      ih g1 hb1 (fun c1 hc1 => hfin c1 (List.mem_cons_of_mem c hc1)) hnn
    exact ⟨g2, by simp [Binary32.runLedgerCalls, hrun, hrun2], hlen2.trans hlen, hnn2⟩

/-- C6, an instance: on the ledger `[100, 5]` a take of -7 and a remove of 500
by faction 0, then an add of -9 and a take of 5 by faction 1. -/
theorem runLedgerCalls_float_nonneg_witness :
    Binary32.LedgerNonneg ⟨[.fin 100, .fin 5]⟩
      ∧ ∃ g1, Binary32.runLedgerCalls
          [.take factionZero (.fin (-7)), .remove factionZero (.fin 500),
            .add factionOne (.fin (-9)), .take factionOne (.fin 5)]
          ⟨[.fin 100, .fin 5]⟩ = some g1
        ∧ g1.reputation_points.length = 2 ∧ Binary32.LedgerNonneg g1 := by
  have h0 : Binary32.LedgerNonneg ⟨[.fin 100, .fin 5]⟩ := by
    intro b hb
    simp at hb
    rcases hb with rfl | rfl <;> simp [F32.nonneg]
  refine ⟨h0, runLedgerCalls_float_nonneg _ ⟨[.fin 100, .fin 5]⟩ ?_ ?_ h0⟩
  · intro c hc
    simp at hc
    rcases hc with rfl | rfl | rfl | rfl <;>
      simp [Binary32.LedgerCall.caller, factionZero, factionOne]
  · intro c hc
    simp at hc
    rcases hc with rfl | rfl | rfl | rfl <;> simp [Binary32.LedgerCall.amount, F32.finite]

/-- C6, counterexample to "with any amounts": on the ledger `[100]`, where
every balance is at least zero, an add of NaN leaves the balance NaN, and a
take of minus infinity followed by a take of plus infinity does too; NaN is
not at least zero. -/
theorem runLedgerCalls_float_nan :
    Binary32.LedgerNonneg ⟨[.fin 100]⟩
      ∧ Binary32.runLedgerCalls [.add factionZero .nan] ⟨[.fin 100]⟩ = some ⟨[.nan]⟩
      ∧ Binary32.runLedgerCalls [.take factionZero .ninf, .take factionZero .pinf]
          ⟨[.fin 100]⟩ = some ⟨[.nan]⟩
      ∧ ¬ Binary32.LedgerNonneg ⟨[.nan]⟩ ∧ F32.le (.fin 0) .nan = false := by
  refine ⟨?_, by decide!, by decide!, ?_, by decide!⟩
  · intro b hb
    simp at hb
    rw [hb]
    simp [F32.nonneg]
  · intro h
    exact h .nan (by simp)

/-! ## Area damage in binary32: theorems -/

/-- A value of `dist` that compares inside the band is finite and at least
zero, and the width of the band is above it (or plus infinity). -/
theorem falloffDist_float_inside (w : World) (length : Binary32.Vector2f → F32)
    (position : Binary32.Vector2f) (min_range : F32) (c : ObjId) (obj : SpaceObject)
    (band : F32)
    (h : F32.lt (Binary32.falloffDist w length position min_range c obj) band = true) :
    ∃ d, Binary32.falloffDist w length position min_range c obj = .fin d ∧ 0 ≤ d
      ∧ (band = .pinf ∨ ∃ b, band = .fin b ∧ d < b) := by
  have hclamp : Binary32.falloffDist w length position min_range c obj
      = F32.clampZero (F32.sub (F32.sub
          (length (Binary32.vsub position (Binary32.getPosition w c)))
          (.fin obj.getRadius)) min_range) := rfl
  rw [hclamp] at h ⊢
  generalize F32.sub (F32.sub (length (Binary32.vsub position (Binary32.getPosition w c)))
    (.fin obj.getRadius)) min_range = d0 at h ⊢
  have hd : ∃ d, F32.clampZero d0 = .fin d ∧ 0 ≤ d := by
    cases d0 with
    | nan => simp [F32.clampZero, F32.lt] at h
    | pinf => cases band <;> simp [F32.clampZero, F32.lt] at h
    | ninf => exact ⟨0, by simp [F32.clampZero, F32.lt], le_refl 0⟩
    | fin v => exact ⟨max 0 v, F32.clampZero_fin v, le_max_left _ _⟩
  obtain ⟨d, hd1, hd2⟩ := hd
  refine ⟨d, hd1, hd2, ?_⟩
  rw [hd1] at h
  cases band with
  | nan => simp [F32.lt] at h
  | pinf => exact Or.inl rfl
  | ninf => simp [F32.lt] at h
  | fin b => exact Or.inr ⟨b, rfl, by simpa [F32.lt] using h⟩

/-- One iteration of the loop of `damageArea` in binary32 never divides by
zero, and adds to the invocations made so far the one of the falloff rule. -/
theorem damageAreaStep_float_eq (w : World) (length : Binary32.Vector2f → F32)
    (position : Binary32.Vector2f) (blast_range min_damage max_damage : F32)
    (info : DamageInfo) (min_range : F32) (calls : List Binary32.TakeDamageCall) (c : ObjId) :
    Binary32.damageAreaStep w length position blast_range min_damage max_damage info
        min_range calls c
      = some (calls ++
          (Binary32.falloffCall w length position blast_range min_damage max_damage info
            min_range c).toList) := by
  unfold Binary32.damageAreaStep Binary32.falloffCall
  cases hso : asSpaceObject w c with
  | none => simp
  | some obj =>
    by_cases hband : F32.lt (Binary32.falloffDist w length position min_range c obj)
        (F32.sub blast_range min_range) = true
    · obtain ⟨d, -, hd0, hb⟩ :=
        falloffDist_float_inside w length position min_range c obj _ hband
      have hne : F32.sub blast_range min_range ≠ .fin 0 := by
        rcases hb with hb | ⟨b, hb, hdb⟩
        · rw [hb]
          simp
        · rw [hb]
          intro h0
          have : b = 0 := by simpa using h0
          linarith
      simp [hband, Binary32.fdiv, hne]
    · simp [hband]

/-- The loop of `damageArea` in binary32 returns, after the invocations made so
far, the invocations of the falloff rule, in the order of the hit list. -/
theorem damageAreaLoop_float_eq (w : World) (length : Binary32.Vector2f → F32)
    (position : Binary32.Vector2f) (blast_range min_damage max_damage : F32)
    (info : DamageInfo) (min_range : F32) (hitList : List ObjId)
    (calls : List Binary32.TakeDamageCall) :
    Binary32.damageAreaLoop w length position blast_range min_damage max_damage info
        min_range hitList calls
      = some (calls ++ hitList.filterMap
          (Binary32.falloffCall w length position blast_range min_damage max_damage info
            min_range)) := by
  induction hitList generalizing calls with
  | nil => simp [Binary32.damageAreaLoop]
  | cons c rest ih =>
    simp only [Binary32.damageAreaLoop, damageAreaStep_float_eq, ih, List.filterMap_cons]
    cases Binary32.falloffCall w length position blast_range min_damage max_damage info
      min_range c <;> simp

theorem damageArea_float_eq (w : World)
    (queryArea : Binary32.Vector2f → Binary32.Vector2f → List ObjId)
    (length : Binary32.Vector2f → F32) (position : Binary32.Vector2f)
    (blast_range min_damage max_damage : F32) (info : DamageInfo) (min_range : F32) :
    Binary32.damageArea w queryArea length position blast_range min_damage max_damage info
        min_range
      = some ((queryArea (Binary32.vsub position (blast_range, blast_range))
            (Binary32.vadd position (blast_range, blast_range))).filterMap
          (Binary32.falloffCall w length position blast_range min_damage max_damage info
            min_range)) := by
  unfold Binary32.damageArea
  rw [damageAreaLoop_float_eq]
  simp

/-- C7, as the code has it: `damageArea` divides by no zero and makes, in the
order of the area query, one `takeDamage` for each SpaceObject whose `dist`
compares less than blast_range - min_range, with the `float` value of
max_damage - (max_damage - min_damage) * dist / (blast_range - min_range),
every operation (those of `dist` too) being an operation of `float`, and none
for another hit; when the operands are finite and every exact intermediate
result is representable, that value is the exact one. -/
theorem damageArea_float_falloff (w : World)
    (queryArea : Binary32.Vector2f → Binary32.Vector2f → List ObjId)
    (length : Binary32.Vector2f → F32) (position : Binary32.Vector2f)
    (blast_range min_damage max_damage : F32) (info : DamageInfo) (min_range : F32) :
    Binary32.damageArea w queryArea length position blast_range min_damage max_damage info
        min_range
        = some ((queryArea (Binary32.vsub position (blast_range, blast_range))
              (Binary32.vadd position (blast_range, blast_range))).filterMap
            (Binary32.falloffCall w length position blast_range min_damage max_damage info
              min_range))
      ∧ (∀ (c : ObjId) (obj : SpaceObject) (L M m b mr : ℚ),
          asSpaceObject w c = some obj →
          length (Binary32.vsub position (Binary32.getPosition w c)) = .fin L →
          max_damage = .fin M → min_damage = .fin m →
          blast_range = .fin b → min_range = .fin mr →
          F32.representable (L - obj.object_radius) →
          F32.representable (L - obj.object_radius - mr) →
          F32.representable (b - mr) →
          F32.representable (M - m) →
          F32.representable ((M - m) * max 0 (L - obj.object_radius - mr)) →
          F32.representable ((M - m) * max 0 (L - obj.object_radius - mr) / (b - mr)) →
          F32.representable
            (M - (M - m) * max 0 (L - obj.object_radius - mr) / (b - mr)) →
          (max 0 (L - obj.object_radius - mr) < b - mr →
            Binary32.falloffCall w length position blast_range min_damage max_damage info
                min_range c
              = some ⟨c, .fin (M - (M - m) * max 0 (L - obj.object_radius - mr) / (b - mr)),
                  info⟩)
          ∧ (b - mr ≤ max 0 (L - obj.object_radius - mr) →
            Binary32.falloffCall w length position blast_range min_damage max_damage info
                min_range c = none)) := by
  refine ⟨damageArea_float_eq .., ?_⟩
  intro c obj L M m b mr hso hL hM hm hb hmr r1 r2 r3 r4 r5 r6 r7
  subst hM hm hb hmr
  have hsubs : ∀ x y : ℚ, F32.sub (.fin x) (.fin y) = F32.round (x - y) := by
    intro x y
    simp [F32.sub, F32.neg, F32.add, sub_eq_add_neg]
  have hdist : Binary32.falloffDist w length position (.fin mr) c obj
      = .fin (max 0 (L - obj.object_radius - mr)) := by
    have hclamp : Binary32.falloffDist w length position (.fin mr) c obj
        = F32.clampZero (F32.sub (F32.sub
            (length (Binary32.vsub position (Binary32.getPosition w c)))
            (.fin obj.getRadius)) (.fin mr)) := rfl
    rw [hclamp, hL]
    unfold SpaceObject.getRadius
    rw [hsubs, F32.round_of_representable _ r1, hsubs, F32.round_of_representable _ r2,
      F32.clampZero_fin]
  have hbandv : F32.sub (.fin b) (.fin mr) = .fin (b - mr) := by
    rw [hsubs, F32.round_of_representable _ r3]
  constructor
  · intro hin
    unfold Binary32.falloffCall
    simp only [hso, hdist, hbandv]
    have hlt : F32.lt (.fin (max 0 (L - obj.object_radius - mr))) (.fin (b - mr)) = true :=
      decide_eq_true hin
    rw [if_pos hlt]
    have hD : F32.sub (.fin M) (.fin m) = .fin (M - m) := by
      rw [hsubs, F32.round_of_representable _ r4]
    have hP : F32.mul (.fin (M - m)) (.fin (max 0 (L - obj.object_radius - mr)))
        = .fin ((M - m) * max 0 (L - obj.object_radius - mr)) := by
      simp only [F32.mul]
      exact F32.round_of_representable _ r5
    have hbne : b - mr ≠ 0 :=
      ne_of_gt (lt_of_le_of_lt (le_max_left 0 (L - obj.object_radius - mr)) hin)
    have hQ : F32.div (.fin ((M - m) * max 0 (L - obj.object_radius - mr))) (.fin (b - mr))
        = .fin ((M - m) * max 0 (L - obj.object_radius - mr) / (b - mr)) := by
      simp only [F32.div, if_neg hbne]
      exact F32.round_of_representable _ r6
    rw [hD, hP, hQ, hsubs, F32.round_of_representable _ r7]
  · intro hout
    unfold Binary32.falloffCall
    simp only [hso, hdist, hbandv]
    have hlt : ¬ F32.lt (.fin (max 0 (L - obj.object_radius - mr))) (.fin (b - mr)) = true :=
      fun hc => absurd (of_decide_eq_true hc) (not_lt.mpr hout)
    rw [if_neg hlt]

/-- C7, the worked example: with min_damage 10, max_damage 100, blast_range 50
and min_range 0, the object at surface distance 0 takes 100, the one at 25
takes 55, which is the exact value of the formula, and the ones at 50 and at
60 take nothing. -/
theorem damageArea_float_falloff_witness :
    Binary32.damageArea blastWorld Binary32.allFour Binary32.axisLength (.fin 0, .fin 0)
        (.fin 50) (.fin 10) (.fin 100) ⟨.DT_Energy⟩ (.fin 0)
        = some [⟨0, .fin 100, ⟨.DT_Energy⟩⟩, ⟨1, .fin 55, ⟨.DT_Energy⟩⟩]
      ∧ Binary32.falloffCall blastWorld Binary32.axisLength (.fin 0, .fin 0)
          (.fin 50) (.fin 10) (.fin 100) ⟨.DT_Energy⟩ (.fin 0) 1
        = some ⟨1, .fin (100 - (100 - 10) * max 0 (25 - 0 - 0) / (50 - 0)), ⟨.DT_Energy⟩⟩
      ∧ (100 : ℚ) - (100 - 10) * max 0 (25 - 0 - 0) / (50 - 0) = 55 := by
  have h := damageArea_float_falloff blastWorld Binary32.allFour Binary32.axisLength
    (.fin 0, .fin 0) (.fin 50) (.fin 10) (.fin 100) ⟨.DT_Energy⟩ (.fin 0)
  refine ⟨?_, ?_, by decide!⟩
  · rw [h.1]
    decide!
  · exact (h.2 1 ⟨0, 0, "", none⟩ 25 100 10 50 0 rfl (by decide!) rfl rfl rfl rfl
      (by decide!) (by decide!) (by decide!) (by decide!) (by decide!) (by decide!)
      (by decide!)).1 (by decide!)

/-- C7, counterexample to "invoked with exactly": with min_damage 10,
max_damage 100, blast_range 7 and min_range 0 the object at surface distance 1
takes `11421989 / 131072`, the result of the three `float` operations, where
the exact value of the formula is `610 / 7`, which no `float` equals. -/
theorem damageArea_float_rounds :
    Binary32.damageArea roundingWorld Binary32.allFour Binary32.axisLength (.fin 0, .fin 0)
        (.fin 7) (.fin 10) (.fin 100) ⟨.DT_Energy⟩ (.fin 0)
      = some [⟨0, .fin 100, ⟨.DT_Energy⟩⟩, ⟨1, .fin (11421989 / 131072), ⟨.DT_Energy⟩⟩,
          ⟨2, .fin (16103131 / 262144), ⟨.DT_Energy⟩⟩]
      ∧ (100 : ℚ) - (100 - 10) * max 0 (1 - 0 - 0) / (7 - 0) = 610 / 7
      ∧ (11421989 / 131072 : ℚ) ≠ 610 / 7
      ∧ ¬ F32.representable (610 / 7) := by
  refine ⟨?_, ?_, ?_, ?_⟩ <;> decide!

/-- A value that is NaN, plus infinity, or finite and at least zero. -/
theorem F32.nonneg_or_nan_cases (a : F32) (h : a = .nan ∨ F32.nonneg a) :
    a = .nan ∨ a = .pinf ∨ ∃ v, 0 ≤ v ∧ a = .fin v := by
  rcases h with h | h
  · exact Or.inl h
  · cases a with
    | nan => exact Or.inl rfl
    | pinf => exact Or.inr (Or.inl rfl)
    | ninf => exact absurd h (by simp [F32.nonneg])
    | fin v => exact Or.inr (Or.inr ⟨v, h, rfl⟩)

/-- The difference `max_damage - min_damage` is NaN or at least zero when
`min_damage <= max_damage`. -/
theorem F32.sub_nonneg_of_le (a b : F32) (h : F32.le a b = true) :
    F32.sub b a = .nan ∨ F32.nonneg (F32.sub b a) := by
  cases a with
  | nan => simp [F32.le] at h
  | pinf =>
    cases b with
    | nan => simp [F32.le] at h
    | pinf => exact Or.inl (by simp [F32.sub, F32.neg, F32.add])
    | ninf => simp [F32.le] at h
    | fin y => simp [F32.le] at h
  | ninf =>
    cases b with
    | nan => simp [F32.le] at h
    | pinf => exact Or.inr (by simp [F32.sub, F32.neg, F32.add, F32.nonneg])
    | ninf => exact Or.inl (by simp [F32.sub, F32.neg, F32.add])
    | fin y => exact Or.inr (by simp [F32.sub, F32.neg, F32.add, F32.nonneg])
  | fin x =>
    cases b with
    | nan => simp [F32.le] at h
    | pinf => exact Or.inr (by simp [F32.sub, F32.neg, F32.add, F32.nonneg])
    | ninf => simp [F32.le] at h
    | fin y =>
      have hxy : x ≤ y := by simpa [F32.le] using h
      have : F32.sub (.fin y) (.fin x) = F32.round (y - x) := by
        simp [F32.sub, F32.neg, F32.add, sub_eq_add_neg]
      rw [this]
      exact Or.inr (F32.round_nonneg _ (by linarith))

/-- The product of a value that is NaN or at least zero with a finite value
that is at least zero is NaN or at least zero. -/
theorem F32.mul_nonneg_or_nan (a : F32) (d : ℚ) (ha : a = .nan ∨ F32.nonneg a)
    (hd : 0 ≤ d) : F32.mul a (.fin d) = .nan ∨ F32.nonneg (F32.mul a (.fin d)) := by
  rcases F32.nonneg_or_nan_cases a ha with h | h | ⟨v, hv, h⟩
  · rw [h]
    exact Or.inl (by simp [F32.mul])
  · rw [h]
    by_cases hd0 : d = 0
    · exact Or.inl (by simp [F32.mul, hd0])
    · have hpos : 0 < d := lt_of_le_of_ne hd (Ne.symm hd0)
      exact Or.inr (by simp [F32.mul, hd0, hpos, F32.nonneg])
  · rw [h]
    have : F32.mul (.fin v) (.fin d) = F32.round (v * d) := by simp [F32.mul]
    rw [this]
    exact Or.inr (F32.round_nonneg _ (mul_nonneg hv hd))

/-- The quotient of a value that is NaN or at least zero by a width of the band
that is plus infinity or above zero is NaN or at least zero. -/
theorem F32.div_nonneg_or_nan (p band : F32) (hp : p = .nan ∨ F32.nonneg p)
    (hb : band = .pinf ∨ ∃ b, band = .fin b ∧ 0 < b) :
    F32.div p band = .nan ∨ F32.nonneg (F32.div p band) := by
  rcases F32.nonneg_or_nan_cases p hp with h | h | ⟨v, hv, h⟩
  · rw [h]
    exact Or.inl (by simp [F32.div])
  · rw [h]
    rcases hb with hb | ⟨b, hb, hb0⟩
    · rw [hb]
      exact Or.inl (by simp [F32.div])
    · rw [hb]
      exact Or.inr (by simp [F32.div, le_of_lt hb0, F32.nonneg])
  · rw [h]
    rcases hb with hb | ⟨b, hb, hb0⟩
    · rw [hb]
      exact Or.inr (by simp [F32.div, F32.nonneg])
    · rw [hb]
      have : F32.div (.fin v) (.fin b) = F32.round (v / b) := by
        simp [F32.div, ne_of_gt hb0]
      rw [this]
      exact Or.inr (F32.round_nonneg _ (div_nonneg hv (le_of_lt hb0)))

/-- A valid value less a value that is NaN or at least zero does not compare
greater than the valid value. -/
theorem F32.not_lt_sub (M q : F32) (hM : F32.valid M) (hq : q = .nan ∨ F32.nonneg q) :
    F32.lt M (F32.sub M q) = false := by
  rcases F32.nonneg_or_nan_cases q hq with h | h | ⟨v, hv, h⟩
  · rw [h]
    cases M <;> simp [F32.sub, F32.neg, F32.add, F32.lt]
  · rw [h]
    cases M <;> simp [F32.sub, F32.neg, F32.add, F32.lt]
  · rw [h]
    cases M with
    | nan => simp [F32.lt]
    | pinf => simp [F32.sub, F32.neg, F32.add, F32.lt]
    | ninf => simp [F32.sub, F32.neg, F32.add, F32.lt]
    | fin m =>
      have hsub : F32.sub (.fin m) (.fin v) = F32.round (m - v) := by
        simp [F32.sub, F32.neg, F32.add, sub_eq_add_neg]
      rw [hsub]
      rcases F32.round_le_of_le (m - v) m hM (by linarith) with hr | ⟨u, hu, hr⟩
      · rw [hr]
        simp [F32.lt]
      · rw [hr]
        simp [F32.lt, hu]

/-- C18, as the code has it: in a call of `damageArea` with a `float`
max_damage and min_damage <= max_damage, the call returns and no amount
handed to a `takeDamage` compares greater than max_damage; the amount can be
below min_damage, by the rounding of the `float` operations, and NaN, by
their overflow. -/
theorem damageArea_float_upper_bound (w : World)
    (queryArea : Binary32.Vector2f → Binary32.Vector2f → List ObjId)
    (length : Binary32.Vector2f → F32) (position : Binary32.Vector2f)
    (blast_range min_damage max_damage : F32) (info : DamageInfo) (min_range : F32)
    (hd : F32.le min_damage max_damage = true) (hv : F32.valid max_damage) :
    ∃ calls, Binary32.damageArea w queryArea length position blast_range min_damage
          max_damage info min_range = some calls
      ∧ ∀ k ∈ calls, F32.lt max_damage k.damage_amount = false := by
  refine ⟨_, damageArea_float_eq .., ?_⟩
  intro k hk
  obtain ⟨c, -, hc⟩ := List.mem_filterMap.mp hk
  unfold Binary32.falloffCall at hc
  cases hso : asSpaceObject w c with
  | none => simp [hso] at hc
  | some obj =>
    simp only [hso] at hc
    by_cases hband : F32.lt (Binary32.falloffDist w length position min_range c obj)
        (F32.sub blast_range min_range) = true
    · simp only [hband, if_true, Option.some.injEq] at hc
      obtain ⟨d, hdist, hd0, hb⟩ :=
        falloffDist_float_inside w length position min_range c obj _ hband
      have hb1 : F32.sub blast_range min_range = .pinf
          ∨ ∃ b, F32.sub blast_range min_range = .fin b ∧ 0 < b := by
        rcases hb with hb | ⟨b, hb, hdb⟩
        · exact Or.inl hb
        · exact Or.inr ⟨b, hb, lt_of_le_of_lt hd0 hdb⟩
      rw [← hc]
      show F32.lt max_damage (F32.sub max_damage _) = false
      apply F32.not_lt_sub max_damage _ hv
      apply F32.div_nonneg_or_nan _ _ _ hb1
      rw [hdist]
      exact F32.mul_nonneg_or_nan _ d (F32.sub_nonneg_of_le _ _ hd) hd0
    · simp [hband] at hc

/-- C18, an instance: with min_damage 10, max_damage 100, blast_range 7 and
min_range 0 on the four objects at the distances 0, 1, 3 and 8. -/
theorem damageArea_float_upper_bound_witness :
    F32.le (.fin 10) (.fin 100) = true ∧ F32.valid (.fin 100)
      ∧ ∃ calls, Binary32.damageArea roundingWorld Binary32.allFour Binary32.axisLength
            (.fin 0, .fin 0) (.fin 7) (.fin 10) (.fin 100) ⟨.DT_Energy⟩ (.fin 0) = some calls
        ∧ ∀ k ∈ calls, F32.lt (.fin 100) k.damage_amount = false :=
  have hv : F32.representable 100 := by decide!
  ⟨by decide!, hv,
    damageArea_float_upper_bound roundingWorld Binary32.allFour Binary32.axisLength
      (.fin 0, .fin 0) (.fin 7) (.fin 10) (.fin 100) ⟨.DT_Energy⟩ (.fin 0)
      (by decide!) hv⟩

/-- C18, counterexample to "min_damage <= damage": with max_damage 100,
min_damage the `float` nearest to 0.1, blast_range 7 and min_range 0, the
object at the surface distance `7 - 2 ^ (-21)`, inside the band, takes
`13107 / 131072`, which is below min_damage; and with max_damage `2 ^ 127`
and min_damage `-2 ^ 127`, whose difference overflows, the object at distance
0 takes NaN and the other one minus infinity. -/
theorem damageArea_float_below_min :
    F32.representable (13421773 / 134217728) ∧ F32.representable (14680063 / 2097152)
      ∧ F32.le (.fin (13421773 / 134217728)) (.fin 100) = true
      ∧ F32.lt (.fin 0) (.fin 7) = true
      ∧ Binary32.damageArea edgeWorld Binary32.bothObjects Binary32.axisLength
          (.fin 0, .fin 0) (.fin 7) (.fin (13421773 / 134217728)) (.fin 100) ⟨.DT_Energy⟩
          (.fin 0)
        = some [⟨0, .fin 100, ⟨.DT_Energy⟩⟩, ⟨1, .fin (13107 / 131072), ⟨.DT_Energy⟩⟩]
      ∧ F32.lt (.fin (13107 / 131072)) (.fin (13421773 / 134217728)) = true
      ∧ F32.representable (2 ^ 127) ∧ F32.representable (-2 ^ 127)
      ∧ F32.le (.fin (-2 ^ 127)) (.fin (2 ^ 127)) = true
      ∧ Binary32.damageArea edgeWorld Binary32.bothObjects Binary32.axisLength
          (.fin 0, .fin 0) (.fin 7) (.fin (-2 ^ 127)) (.fin (2 ^ 127)) ⟨.DT_Energy⟩ (.fin 0)
        = some [⟨0, .nan, ⟨.DT_Energy⟩⟩, ⟨1, .ninf, ⟨.DT_Energy⟩⟩] := by
  refine ⟨?_, ?_, ?_, ?_, ?_, ?_, ?_, ?_, ?_, ?_⟩ <;> decide!

/-! ## Binary32 arithmetic: rounding is monotone -/

end EmptyEpsilon
